import Mathlib

/-! Shallow embedding of xcube's index-resolution, point-extraction and
tile-rendering core (src/xcube/api.py and src/xcube/core/tile.py).
Machine floats are modelled by exact rationals, the not-a-number outputs of
point extraction by `Option.none`, and Python exceptions by `Except.error`.
Datetime axes are reinterpreted by the code as unsigned integers before any
numeric step, so a single numeric axis type (here `ℚ`) captures the index
arithmetic of every axis kind. -/

/-- Truncation toward zero: the semantics of numpy's `astype(np.int64)`
applied to a float value (api.py line 489). -/
def truncToInt (q : ℚ) : ℤ := if 0 ≤ q then ⌊q⌋ else ⌈q⌉

/-- Helper of `npInterpPos`: walks the edge list carrying the index `i` of
the current left edge `prev`.  Mirrors the piecewise-linear rule of
`np.interp(v, coords, x)` for the segment `[prev, e]`, with `-1` when the
query lies beyond the last edge (the `right=-1` argument of api.py
line 488). -/
def interpGo (v : ℚ) : ℕ → ℚ → List ℚ → ℚ
  | i, prev, [] => if v = prev then (i : ℚ) else -1
  | i, prev, e :: rest =>
      if v ≤ e then (i : ℚ) + (v - prev) / (e - prev) else interpGo v (i + 1) e rest

/-- Embedding of `np.interp(v, coords, np.linspace(0, n1, n2), left=-1, right=-1)`
(api.py lines 487-488): the continuous position of `v` against the cell-edge
array `edges`, with the sentinel `-1` for a query strictly below the first
edge or strictly above the last edge. -/
def npInterpPos (edges : List ℚ) (v : ℚ) : ℚ :=
  match edges with
  | [] => -1
  | e0 :: rest => if v < e0 then -1 else interpGo v 0 e0 rest

/-- Cell-edge array built from an explicit bounds variable (api.py
lines 460-462): the left bound of every cell followed by the right bound of
the last cell. -/
def edgesFromBounds (bs : List (ℚ × ℚ)) : List ℚ :=
  bs.map Prod.fst ++ [(bs.getLastD (0, 0)).2]

/-- Cell-edge array inferred from cell-center coordinates (api.py
lines 463-480): center-to-center deltas, the two outer deltas copied from
the last interior delta, one extra coordinate appended past the end, then
half a delta subtracted everywhere.  `cc` is the (already increasing)
center array. -/
def edgesFromCenters (cc : List ℚ) : List ℚ :=
  let diffs := List.zipWith (fun a b => b - a) cc cc.tail
  let dlast := diffs.getLastD 0
  let deltas := diffs ++ [dlast, dlast]
  let coords := cc ++ [cc.getLastD 0 + dlast]
  List.zipWith (fun c d => c - d / 2) coords deltas

/-- One query value's resolution against a prepared edge array (api.py
lines 488-494): interpolate, truncate to an integer index, and clamp an
index that reached `n1` (a query exactly on the final edge) down to
`n1 - 1` with fraction forced to `1`. -/
def resolveValue (n1 : ℕ) (edges : List ℚ) (v : ℚ) : ℤ × ℚ :=
  let result := npInterpPos edges v
  let index := truncToInt result
  if (n1 : ℤ) ≤ index then ((n1 : ℤ) - 1, 1) else (index, result - index)

/-- Result type of `get_coord_indexes`: only the indexes, or the indexes
paired with their fractions when `ret_fractions` is set. -/
inductive CoordIdxResult
  | plain (idxs : List ℤ)
  | withFracs (idxs : List ℤ) (fracs : List ℚ)
deriving DecidableEq, Repr

/-- Index list held by a `CoordIdxResult`. -/
def coordIdxList : CoordIdxResult → List ℤ
  | .plain l => l
  | .withFracs l _ => l

/-- Edge-array preparation phase of `get_coord_indexes` (api.py
lines 448-483): explicit bounds when a usable bounds variable exists
(`bounds = some bs` models `_get_bounds_var` succeeding), otherwise edges
inferred from centers, otherwise the hard error for a degenerate axis.
Returns the axis size `n1`, the increasing edge array, and the
`is_reversed` flag.  Python quotes the variable name in the message with
`!r`; the model keeps the bare name. -/
def coordEdges (name : String) (centers : List ℚ)
    (bounds : Option (List (ℚ × ℚ))) : Except String (ℕ × List ℚ × Bool) :=
  match bounds with
  | some [] => .error "IndexError: index 0 is out of bounds"
  | some (b0 :: brest) =>
      let n1 := centers.length
      let isRev := decide (b0.2 - b0.1 < 0)
      let cells :=
        if isRev then ((b0 :: brest).reverse).map (fun pr => (pr.2, pr.1))
        else b0 :: brest
      .ok (n1, edgesFromBounds cells, isRev)
  | none =>
      if 1 < centers.length then
        let isRev := decide (centers.getLastD 0 - centers.headD 0 < 0)
        let cc := if isRev then centers.reverse else centers
        .ok (centers.length, edgesFromCenters cc, isRev)
      else
        .error ("cannot determine cell boundaries for coordinate variable "
          ++ name ++ " of size " ++ toString centers.length)

/-- Embedding of `get_coord_indexes` (api.py lines 426-501): prepare the
edge array, resolve every query value, and reverse the result arrays when
the axis storage order was reversed. -/
def get_coord_indexes (name : String) (centers : List ℚ)
    (bounds : Option (List (ℚ × ℚ))) (values : List ℚ)
    (ret_fractions : Bool) : Except String CoordIdxResult :=
  match coordEdges name centers bounds with
  | .error e => .error e
  | .ok (n1, edges, isRev) =>
      let pairs := values.map (fun v => resolveValue n1 edges v)
      let indexes := pairs.map Prod.fst
      if ret_fractions then
        let fractions := pairs.map Prod.snd
        if isRev then .ok (.withFracs indexes.reverse fractions.reverse)
        else .ok (.withFracs indexes fractions)
      else
        if isRev then .ok (.plain indexes.reverse) else .ok (.plain indexes)

/-- Coordinate variable of a cube: its cell-center values together with the
result of `_get_bounds_var` (api.py lines 546-554), i.e. `some bs` exactly
when a bounds variable of matching dtype and shape `(size, 2)` exists. -/
structure CoordVar where
  centers : List ℚ
  bounds : Option (List (ℚ × ℚ))
deriving Repr

/-- Cube dataset as the extraction pipeline sees it: the common dimension
tuple of the data variables (`_get_cube_data_var_dims`), the coordinate
variables keyed by name, and the data variables keyed by name, each an
array read as a total function from an in-range index tuple to its stored
value. -/
structure CubeModel where
  dims : List String
  coords : List (String × CoordVar)
  vars : List (String × (List ℕ → ℚ))

/-- First-match association-list lookup, modelling name-based column and
coordinate access (`points[col_name]`, `dataset[coord_var_name]`). -/
def alookup {α : Type} : List (String × α) → String → Option α
  | [], _ => none
  | (k, v) :: rest, key => if k = key then some v else alookup rest key

/-- Message of the column length-mismatch error of `get_cube_point_indexes`
(api.py lines 411-413).  Python quotes the column names with `!r`; the
model keeps the bare names. -/
def lengthMismatchMsg (c1 : String) (n1 : ℕ) (c2 : String) (n2 : ℕ) : String :=
  "number of point coordinates must be same for all columns, but found "
    ++ toString n1 ++ " for column " ++ c1 ++ " and " ++ toString n2
    ++ " for column " ++ c2

/-- Loop of `get_cube_point_indexes` (api.py lines 398-415) over the cube
dimensions: check the coordinate variable and the point column exist,
remember the first column's name, compare every later column's length
against the first column's, and resolve the column through
`get_coord_indexes` (with `ret_fractions` left at its default `False`).
`first` carries `first_col_name`. -/
def gcpiGo (coords : List (String × CoordVar)) (points : List (String × List ℚ))
    (first : Option String) : List String → Except String (List (String × List ℤ))
  | [] => .ok []
  | dim :: rest =>
      match alookup coords dim with
      | none => .error ("missing coordinate variable for dimension " ++ dim)
      | some cv =>
          match alookup points dim with
          | none => .error ("column " ++ dim ++ " not found in points")
          | some col =>
              let check : Except String Unit :=
                match first with
                | none => .ok ()
                | some f0 =>
                    let n1 := ((alookup points f0).getD []).length
                    let n2 := col.length
                    if n1 ≠ n2 then .error (lengthMismatchMsg f0 n1 dim n2)
                    else .ok ()
              match check with
              | .error e => .error e
              | .ok _ =>
                  match get_coord_indexes dim cv.centers cv.bounds col false with
                  | .error e => .error e
                  | .ok r =>
                      match gcpiGo coords points (some ((first.getD dim))) rest with
                      | .error e => .error e
                      | .ok tail => .ok ((dim, coordIdxList r) :: tail)

/-- Embedding of `get_cube_point_indexes` (api.py lines 375-417) with the
identity `dim_name_mapping` (the claims never rename columns) and the cube
already asserted. -/
def get_cube_point_indexes (cube : CubeModel)
    (points : List (String × List ℚ)) : Except String (List (String × List ℤ)) :=
  gcpiGo cube.coords points none cube.dims

/-- Dimension sizes of a cube, read off the coordinate variables (the data
variables' arrays share these sizes in a cube dataset). -/
def cubeSizes (cube : CubeModel) : List ℕ :=
  cube.dims.map (fun d =>
    match alookup cube.coords d with
    | some cv => cv.centers.length
    | none => 0)

/-- Numpy integer indexing of one index tuple into an array of the given
shape: every component must lie in `[-size, size)`, a negative component
wraps around, anything else is an `IndexError` (the semantics of
`var_data[row_index]` at api.py line 346). -/
def npTupleIndex : List ℕ → List ℤ → Except String (List ℕ)
  | [], [] => .ok []
  | n :: ss, e :: es =>
      match npTupleIndex ss es with
      | .error msg => .error msg
      | .ok t =>
          if 0 ≤ e ∧ e < (n : ℤ) then .ok (e.toNat :: t)
          else if -(n : ℤ) ≤ e ∧ e < 0 then .ok ((e + n).toNat :: t)
          else .error "IndexError: index out of bounds"
  | _, _ => .error "IndexError: wrong number of indices"

/-- Extraction of one output cell (api.py lines 338-346): a row whose index
tuple contains the sentinel `-1` yields not-a-number (modelled `none`) for
the variable, any other row gathers the variable's stored value at that
exact index tuple. -/
def gatherRowValue (sizes : List ℕ) (f : List ℕ → ℚ) (row : List ℤ) :
    Except String (Option ℚ) :=
  if (-1 : ℤ) ∈ row then .ok none
  else
    match npTupleIndex sizes row with
    | .error e => .error e
    | .ok t => .ok (some (f t))

/-- Models `pandas.concat` as called at api.py line 351: the `values`
DataFrame is passed as the `objs` argument and the `indexes` DataFrame as
the positional `axis` argument.  pandas requires `objs` to be an iterable
of pandas objects and raises TypeError when handed a bare DataFrame, so
the `indexes` argument is never even reached. -/
def pdConcatDfAsObjs (values : List (String × List (Option ℚ)))
    (indexes : List (String × List ℤ)) :
    Except String (List (String × List (Option ℚ))) :=
  .error "TypeError: first argument must be an iterable of pandas objects, you passed an object of type DataFrame"

/-- Value-extraction part of `get_cube_values` (api.py lines 289-348) with
the cube already asserted: check every cube dimension has an index column,
stack the index columns into per-row index tuples, and gather every data
variable at every row. -/
def get_cube_values_core (cube : CubeModel) (indexes : List (String × List ℤ)) :
    Except String (List (String × List (Option ℚ))) :=
  match cube.dims.find? (fun d => (alookup indexes d).isNone) with
  | some d => .error ("missing dimension " ++ d ++ " in indexes")
  | none =>
      let indexArrays := cube.dims.map (fun d => (alookup indexes d).getD [])
      let numRows := (indexArrays.headD []).length
      let sizes := cubeSizes cube
      cube.vars.mapM (fun nf =>
          (match (List.range numRows).mapM (fun i =>
              gatherRowValue sizes nf.2 (indexArrays.map (fun c => c.getD i 0))) with
          | .error e => .error e
          | .ok col => .ok (nf.1, col) : Except String (String × List (Option ℚ))))

/-- Embedding of `get_cube_values` (api.py lines 276-353): extract the
values, then, when `include_indexes` is set, run the
`pd.concat(values, indexes)` call of line 351 on the result. -/
def get_cube_values (cube : CubeModel) (indexes : List (String × List ℤ))
    (include_indexes : Bool) : Except String (List (String × List (Option ℚ))) :=
  match get_cube_values_core cube indexes with
  | .error e => .error e
  | .ok values =>
      if include_indexes then pdConcatDfAsObjs values indexes
      else .ok values

/-- Embedding of `get_cube_point_values` (api.py lines 356-372): resolve
the point coordinates to indexes, then extract the values at them. -/
def get_cube_point_values (cube : CubeModel) (points : List (String × List ℚ))
    (include_indexes : Bool) : Except String (List (String × List (Option ℚ))) :=
  match get_cube_point_indexes cube points with
  | .error e => .error e
  | .ok idxs => get_cube_values cube idxs include_indexes

/-- All position tuples of a grid with the given axis sizes, the first axis
varying slowest: the cube's own cell-center coordinate tuples are obtained
by reading each position through the axes' center arrays. -/
def meshIdx : List ℕ → List (List ℕ)
  | [] => [[]]
  | n :: ns => (List.range n).flatMap (fun i => (meshIdx ns).map (fun p => i :: p))

/-- Componentwise complement of a position tuple within a grid of the given
sizes: position `x` on an axis of size `n` becomes `n - 1 - x`. -/
def compTuple (ns : List ℕ) (p : List ℕ) : List ℕ :=
  List.zipWith (fun n x => n - 1 - x) ns p

/-- Validity of an axis stored in increasing order, with explicit bounds:
the first cell is increasing, the edge array is strictly increasing, and
every cell center lies inside its own half-open cell. -/
def IncAxis (cv : CoordVar) (bs : List (ℚ × ℚ)) : Prop :=
  (bs.headD (0, 0)).1 < (bs.headD (0, 0)).2 ∧
  (edgesFromBounds bs).Sorted (· < ·) ∧
  ∀ x, x < cv.centers.length →
    (edgesFromBounds bs).getD x 0 ≤ cv.centers.getD x 0 ∧
    cv.centers.getD x 0 < (edgesFromBounds bs).getD (x + 1) 0

/-- Validity of an axis stored in decreasing order, with explicit bounds:
the first stored cell is decreasing, and after the internal fix-up of
api.py line 459 (reverse the rows, swap the two columns) the edge array is
strictly increasing with the reversed center array inside the cells. -/
def DecAxis (cv : CoordVar) (bs : List (ℚ × ℚ)) : Prop :=
  let fixed := (bs.reverse).map (fun pr => (pr.2, pr.1))
  (bs.headD (0, 0)).2 < (bs.headD (0, 0)).1 ∧
  (edgesFromBounds fixed).Sorted (· < ·) ∧
  ∀ x, x < cv.centers.length →
    (edgesFromBounds fixed).getD x 0 ≤ cv.centers.getD (cv.centers.length - 1 - x) 0 ∧
    cv.centers.getD (cv.centers.length - 1 - x) 0 < (edgesFromBounds fixed).getD (x + 1) 0

/-- Validity of an axis stored in increasing order without a bounds
variable: the cell edges inferred from the centers by the half-delta rule
of api.py lines 463-480 are strictly increasing and every center lies
inside its own half-open inferred cell. -/
def IncCentersAxis (cv : CoordVar) : Prop :=
  ¬ (cv.centers.getLastD 0 - cv.centers.headD 0 < 0) ∧
  (edgesFromCenters cv.centers).Sorted (· < ·) ∧
  ∀ x, x < cv.centers.length →
    (edgesFromCenters cv.centers).getD x 0 ≤ cv.centers.getD x 0 ∧
    cv.centers.getD x 0 < (edgesFromCenters cv.centers).getD (x + 1) 0

/-- Validity of an axis stored in decreasing order without a bounds
variable: after the internal center reversal of api.py line 472 the edges
inferred from the reversed centers are strictly increasing with the
reversed center array inside its cells. -/
def DecCentersAxis (cv : CoordVar) : Prop :=
  cv.centers.getLastD 0 - cv.centers.headD 0 < 0 ∧
  (edgesFromCenters cv.centers.reverse).Sorted (· < ·) ∧
  ∀ x, x < cv.centers.length →
    (edgesFromCenters cv.centers.reverse).getD x 0 ≤
      cv.centers.getD (cv.centers.length - 1 - x) 0 ∧
    cv.centers.getD (cv.centers.length - 1 - x) 0 <
      (edgesFromCenters cv.centers.reverse).getD (x + 1) 0

/-- Valid coordinate axis of a cube: either a usable bounds variable whose
rows match the centers one-to-one, stored in increasing or in decreasing
order, or no bounds variable and more than one center with the cell edges
inferred from the centers (api.py lines 463-480), again stored in
increasing or in decreasing order. -/
def ValidAxis (cv : CoordVar) : Prop :=
  (∃ bs, cv.bounds = some bs ∧ bs ≠ [] ∧ bs.length = cv.centers.length ∧
    (IncAxis cv bs ∨ DecAxis cv bs)) ∨
  (cv.bounds = none ∧ 1 < cv.centers.length ∧
    (IncCentersAxis cv ∨ DecCentersAxis cv))

/-- Axis on which `get_coord_indexes` cannot raise: either a usable bounds
variable with at least one cell, or no bounds variable and more than one
center (otherwise the cell-boundaries error of api.py line 482 fires). -/
def ResolvableAxis (cv : CoordVar) : Prop :=
  (∃ b0 brest, cv.bounds = some (b0 :: brest)) ∨
  (cv.bounds = none ∧ 1 < cv.centers.length)

/-- Python value that is either absent (`None`), a floating NaN, or an
ordinary number; the domain of the `cmap_vmin` / `cmap_vmax` parameters of
`get_ml_dataset_tile` (tile.py lines 47-48, default `None`). -/
inductive PyFloatOpt
  | pynone
  | nan
  | val (q : ℚ)
deriving DecidableEq, Repr

/-- Models `np.isnan` on a scalar argument: `True` exactly on NaN, and a
TypeError on `None`, which numpy cannot coerce to a float array. -/
def npIsnan : PyFloatOpt → Except String Bool
  | .pynone => .error "TypeError: ufunc isnan not supported for the input types"
  | .nan => .ok true
  | .val _ => .ok false

/-- Embedding of `array.min() if np.isnan(cmap_vmin) else cmap_vmin`
(tile.py lines 93-94): `planeBound` is the loaded plane's own
minimum (resp. maximum). -/
def resolveCmapBound (planeBound : ℚ) (b : PyFloatOpt) : Except String PyFloatOpt :=
  match npIsnan b with
  | .error e => .error e
  | .ok true => .ok (.val planeBound)
  | .ok false => .ok b

/-- Embedding of the 2-D plane selection of `get_ml_dataset_tile` (tile.py
lines 77-89): a 2-axis variable takes no labels, a variable with more axes
requires exactly `ndim - 2` labels (the bare `assert` raises an
AssertionError on mismatch), and fewer than 2 axes is a hard error. -/
def selectPlaneLabels (var_name : String) (ndim : ℕ)
    (labels : List (String × ℚ)) : Except String Unit :=
  if ndim = 2 then
    if labels.length = 0 then .ok () else .error "AssertionError"
  else if 2 < ndim then
    if labels.length = ndim - 2 then .ok () else .error "AssertionError"
  else
    .error ("Variable " ++ var_name
      ++ " must be an N-D Dataset with N >= 2, but it is only "
      ++ toString ndim ++ "-D")

/-- Python's `str.join` on a list of strings. -/
def strJoin (sep : String) : List String → String
  | [] => ""
  | [s] => s
  | s :: rest => s ++ sep ++ strJoin sep rest

/-- Hexadecimal digit characters. -/
def hexDigitChar (d : ℕ) : Char := "0123456789abcdef".toList.getD d '?'

/-- Python's `hex` on a natural number (the value of `id(ml_dataset)`):
the lowercase hexadecimal digits behind a `0x` marker. -/
def hexString (n : ℕ) : String :=
  if n = 0 then "0x0"
  else ⟨'0' :: 'x' :: ((Nat.digits 16 n).reverse.map hexDigitChar)⟩

/-- Embedding of the `image_id` construction of `get_ml_dataset_tile`
(tile.py lines 61-63): the hexadecimal in-memory id of the dataset object,
the level, variable name, colour parameters (already rendered by `str`) and
the `dim=value` label pairs, joined with dashes.  `dsId` models
`id(ml_dataset)`, the id of the live Python object. -/
def mkImageId (dsId : ℕ) (z : ℕ) (var_name cbar vminS vmaxS : String)
    (labels : List (String × String)) : String :=
  strJoin "-" ([hexString dsId, toString z, var_name, cbar, vminS, vmaxS]
    ++ labels.map (fun kv => kv.1 ++ "=" ++ kv.2))

/-! Lemmas about the piecewise-linear interpolation core. -/

theorem interpGo_nil (v : ℚ) (i : ℕ) (prev : ℚ) :
    interpGo v i prev [] = if v = prev then (i : ℚ) else -1 := rfl

theorem interpGo_cons (v : ℚ) (i : ℕ) (prev e : ℚ) (rest : List ℚ) :
    interpGo v i prev (e :: rest) =
      if v ≤ e then (i : ℚ) + (v - prev) / (e - prev)
      else interpGo v (i + 1) e rest := rfl

theorem sorted_head_le_getLastD :
    ∀ (rest : List ℚ) (prev : ℚ), (prev :: rest).Sorted (· < ·) →
    prev ≤ (prev :: rest).getLastD 0 := by
  intro rest
  induction rest with
  | nil => intro prev _; simp [List.getLastD]
  | cons e rest' ih =>
      intro prev hs
      have h1 : prev < e := (List.sorted_cons.mp hs).1 e (by simp)
      have h2 := ih e hs.of_cons
      calc prev ≤ e := le_of_lt h1
        _ ≤ (e :: rest').getLastD 0 := h2
        _ = (prev :: e :: rest').getLastD 0 := by
              simp [List.getLastD_cons]

theorem interpGo_above (v : ℚ) :
    ∀ (rest : List ℚ) (prev : ℚ) (i : ℕ),
    (prev :: rest).Sorted (· < ·) → (prev :: rest).getLastD 0 < v →
    interpGo v i prev rest = -1 := by
  intro rest
  induction rest with
  | nil =>
      intro prev i _ hlast
      simp only [List.getLastD] at hlast
      have hne : v ≠ prev := Ne.symm (ne_of_lt hlast)
      rw [interpGo_nil, if_neg hne]
  | cons e rest' ih =>
      intro prev i hs hlast
      have hlast' : (e :: rest').getLastD 0 < v := by
        simpa [List.getLastD_cons] using hlast
      have hle : e ≤ (e :: rest').getLastD 0 := sorted_head_le_getLastD rest' e hs.of_cons
      have hne : ¬ v ≤ e := not_le.2 (lt_of_le_of_lt hle hlast')
      rw [interpGo_cons, if_neg hne]
      exact ih e (i + 1) hs.of_cons hlast'

theorem interpGo_last (v : ℚ) :
    ∀ (rest : List ℚ) (prev : ℚ) (i : ℕ),
    (prev :: rest).Sorted (· < ·) → v = (prev :: rest).getLastD 0 →
    interpGo v i prev rest = (i : ℚ) + rest.length := by
  intro rest
  induction rest with
  | nil =>
      intro prev i _ hv
      have hvp : v = prev := by
        simpa [List.getLastD_cons, List.getLastD_nil] using hv
      rw [interpGo_nil, if_pos hvp]
      simp
  | cons e rest' ih =>
      intro prev i hs hv
      have hprev_e : prev < e := (List.sorted_cons.mp hs).1 e (by simp)
      have hv' : v = (e :: rest').getLastD 0 := by
        simpa [List.getLastD_cons] using hv
      cases rest' with
      | nil =>
          have hve : v = e := by simpa [List.getLastD] using hv'
          rw [interpGo_cons, if_pos (le_of_eq hve), hve,
            div_self (by linarith : e - prev ≠ 0)]
          simp
      | cons f rest'' =>
          have hmem : (f :: rest'').getLastD e ∈ f :: rest'' := by
            rw [List.getLastD_eq_getLast?, List.getLast?_eq_getLast _ (by simp)]
            exact List.getLast_mem _
          have hvmem : v ∈ f :: rest'' := by
            rw [hv']; simpa [List.getLastD_cons] using hmem
          have hev : e < v := (List.sorted_cons.mp hs.of_cons).1 v hvmem
          have hne : ¬ v ≤ e := not_le.2 hev
          rw [interpGo_cons, if_neg hne, ih e (i + 1) hs.of_cons hv']
          push_cast [List.length_cons]
          ring

theorem interpGo_cell (v : ℚ) :
    ∀ (k : ℕ) (prev : ℚ) (rest : List ℚ) (i : ℕ),
    (prev :: rest).Sorted (· < ·) →
    ∀ a b, (prev :: rest)[k]? = some a → (prev :: rest)[k + 1]? = some b →
    a ≤ v → v < b →
    interpGo v i prev rest = (i : ℚ) + (k : ℚ) + (v - a) / (b - a) := by
  intro k
  induction k with
  | zero =>
      intro prev rest i hs a b ha hb hav hvb
      have hpa : prev = a := by simpa using ha
      cases rest with
      | nil => simp at hb
      | cons e rest' =>
          have heb : e = b := by simpa using hb
          have hle : v ≤ e := le_of_lt (heb ▸ hvb)
          rw [interpGo_cons, if_pos hle, ← hpa, heb]
          simp
  | succ k ih =>
      intro prev rest i hs a b ha hb hav hvb
      cases rest with
      | nil => simp at ha
      | cons e rest' =>
          have ha' : (e :: rest')[k]? = some a := by simpa using ha
          have hb' : (e :: rest')[k + 1]? = some b := by simpa using hb
          by_cases hve : v ≤ e
          · cases k with
            | succ k' =>
                have hmem : a ∈ rest' := List.getElem?_mem (by simpa using ha')
                have : e < a := (List.sorted_cons.mp hs.of_cons).1 a hmem
                exact absurd (le_trans hav hve) (not_le.2 this)
            | zero =>
                have hea : e = a := by simpa using ha'
                subst hea
                have hveq : v = e := le_antisymm hve hav
                have hprev_e : prev < e := (List.sorted_cons.mp hs).1 e (by simp)
                rw [interpGo_cons, if_pos hve, hveq,
                  div_self (by linarith : e - prev ≠ 0)]
                simp
          · rw [interpGo_cons, if_neg hve,
              ih e rest' (i + 1) hs.of_cons a b ha' hb' hav hvb]
            push_cast
            ring

theorem npInterpPos_below (e0 : ℚ) (rest : List ℚ) (v : ℚ) (h : v < e0) :
    npInterpPos (e0 :: rest) v = -1 := by
  simp [npInterpPos, h]

theorem npInterpPos_above (e0 : ℚ) (rest : List ℚ) (v : ℚ)
    (hs : (e0 :: rest).Sorted (· < ·)) (h : (e0 :: rest).getLastD 0 < v) :
    npInterpPos (e0 :: rest) v = -1 := by
  have h0 : ¬ v < e0 :=
    not_lt.2 (le_of_lt (lt_of_le_of_lt (sorted_head_le_getLastD rest e0 hs) h))
  simp only [npInterpPos, if_neg h0]
  exact interpGo_above v rest e0 0 hs h

theorem npInterpPos_last (e0 : ℚ) (rest : List ℚ) (v : ℚ)
    (hs : (e0 :: rest).Sorted (· < ·)) (h : v = (e0 :: rest).getLastD 0) :
    npInterpPos (e0 :: rest) v = (rest.length : ℚ) := by
  have h0 : ¬ v < e0 := by
    rw [h]; exact not_lt.2 (sorted_head_le_getLastD rest e0 hs)
  simp only [npInterpPos, if_neg h0]
  rw [interpGo_last v rest e0 0 hs h]
  simp

theorem npInterpPos_cell (edges : List ℚ) (v : ℚ) (k : ℕ) (a b : ℚ)
    (hs : edges.Sorted (· < ·))
    (ha : edges[k]? = some a) (hb : edges[k + 1]? = some b)
    (hav : a ≤ v) (hvb : v < b) :
    npInterpPos edges v = (k : ℚ) + (v - a) / (b - a) := by
  cases edges with
  | nil => simp at ha
  | cons e0 rest =>
      have h0 : ¬ v < e0 := by
        cases k with
        | zero =>
            have : e0 = a := by simpa using ha
            exact not_lt.2 (this ▸ hav)
        | succ k' =>
            have hmem : a ∈ rest := List.getElem?_mem (by simpa using ha)
            have : e0 < a := (List.sorted_cons.mp hs).1 a hmem
            exact not_lt.2 (le_of_lt (lt_of_lt_of_le this hav))
      simp only [npInterpPos, if_neg h0]
      rw [interpGo_cell v k e0 rest 0 hs a b ha hb hav hvb]
      simp

/-! Lemmas about single-value resolution. -/

theorem truncToInt_intCast (z : ℤ) : truncToInt (z : ℚ) = z := by
  rw [truncToInt]
  by_cases h : (0 : ℚ) ≤ (z : ℚ)
  · rw [if_pos h, Int.floor_intCast]
  · rw [if_neg h, Int.ceil_intCast]

theorem getElem?_of_lt_getD (l : List ℚ) (n : ℕ) (h : n < l.length) :
    l[n]? = some (l.getD n 0) := by
  rw [List.getElem?_eq_getElem h, List.getD_eq_getElem _ _ h]

theorem resolveValue_below (n1 : ℕ) (e0 : ℚ) (rest : List ℚ) (v : ℚ)
    (h : v < e0) : resolveValue n1 (e0 :: rest) v = (-1, 0) := by
  have hnp := npInterpPos_below e0 rest v h
  have ht : truncToInt (-1) = -1 := by simpa using truncToInt_intCast (-1)
  have hni : ¬ ((n1 : ℤ) ≤ -1) := by omega
  simp [resolveValue, hnp, ht, hni]

theorem resolveValue_above (n1 : ℕ) (e0 : ℚ) (rest : List ℚ) (v : ℚ)
    (hs : (e0 :: rest).Sorted (· < ·)) (h : (e0 :: rest).getLastD 0 < v) :
    resolveValue n1 (e0 :: rest) v = (-1, 0) := by
  have hnp := npInterpPos_above e0 rest v hs h
  have ht : truncToInt (-1) = -1 := by simpa using truncToInt_intCast (-1)
  have hni : ¬ ((n1 : ℤ) ≤ -1) := by omega
  simp [resolveValue, hnp, ht, hni]

theorem resolveValue_last (n1 : ℕ) (e0 : ℚ) (rest : List ℚ) (v : ℚ)
    (hs : (e0 :: rest).Sorted (· < ·)) (hlen : rest.length = n1)
    (hv : v = (e0 :: rest).getLastD 0) :
    resolveValue n1 (e0 :: rest) v = ((n1 : ℤ) - 1, 1) := by
  have hnp := npInterpPos_last e0 rest v hs hv
  rw [hlen] at hnp
  have ht : truncToInt ((n1 : ℕ) : ℚ) = ((n1 : ℕ) : ℤ) := by
    simpa using truncToInt_intCast (n1 : ℤ)
  simp [resolveValue, hnp, ht]

theorem resolveValue_cell (n1 : ℕ) (edges : List ℚ) (v : ℚ) (k : ℕ) (a b : ℚ)
    (hs : edges.Sorted (· < ·)) (hlen : edges.length = n1 + 1)
    (ha : edges[k]? = some a) (hb : edges[k + 1]? = some b)
    (hav : a ≤ v) (hvb : v < b) :
    resolveValue n1 edges v = ((k : ℤ), (v - a) / (b - a)) := by
  have hk1 : k + 1 < edges.length := (List.getElem?_eq_some.mp hb).1
  have hk : k < edges.length := by omega
  have hga : edges[k] = a := by
    have := (List.getElem?_eq_some.mp ha).2; exact this
  have hgb : edges[k + 1] = b := (List.getElem?_eq_some.mp hb).2
  have hab : a < b := by
    have hlt := hs.rel_get_of_lt (a := ⟨k, hk⟩) (b := ⟨k + 1, hk1⟩)
      (by simp [Fin.lt_def])
    simpa [List.get_eq_getElem, hga, hgb] using hlt
  have h0f : 0 ≤ (v - a) / (b - a) := div_nonneg (by linarith) (by linarith)
  have h1f : (v - a) / (b - a) < 1 := (div_lt_one (by linarith)).2 (by linarith)
  have hq : npInterpPos edges v = (k : ℚ) + (v - a) / (b - a) :=
    npInterpPos_cell edges v k a b hs ha hb hav hvb
  have hkq : ((k : ℚ)) = (((k : ℤ)) : ℚ) := by push_cast; rfl
  have htr : truncToInt ((k : ℚ) + (v - a) / (b - a)) = (k : ℤ) := by
    rw [truncToInt, if_pos (by positivity), hkq, Int.floor_int_add,
      Int.floor_eq_zero_iff.2 (Set.mem_Ico.2 ⟨h0f, h1f⟩)]
    ring
  have hclamp : ¬ ((n1 : ℤ) ≤ (k : ℤ)) := by
    have : k < n1 := by omega
    exact_mod_cast not_le.2 (by exact_mod_cast this : ((k : ℤ)) < (n1 : ℤ))
  simp only [resolveValue, hq, htr, if_neg hclamp]
  rw [hkq]
  ring_nf

/-! Evaluation lemmas for `coordEdges` and `get_coord_indexes`. -/

theorem coordEdges_bounds_inc (name : String) (centers : List ℚ) (b0 : ℚ × ℚ)
    (brest : List (ℚ × ℚ)) (h : ¬ (b0.2 - b0.1 < 0)) :
    coordEdges name centers (some (b0 :: brest)) =
      .ok (centers.length, edgesFromBounds (b0 :: brest), false) := by
  have hd : decide (b0.2 - b0.1 < 0) = false := decide_eq_false h
  simp only [coordEdges, hd, Bool.false_eq_true, if_false]

theorem coordEdges_bounds_dec (name : String) (centers : List ℚ) (b0 : ℚ × ℚ)
    (brest : List (ℚ × ℚ)) (h : b0.2 - b0.1 < 0) :
    coordEdges name centers (some (b0 :: brest)) =
      .ok (centers.length,
           edgesFromBounds (((b0 :: brest).reverse).map (fun pr => (pr.2, pr.1))),
           true) := by
  have hd : decide (b0.2 - b0.1 < 0) = true := decide_eq_true h
  simp only [coordEdges, hd, if_true]

theorem get_coord_indexes_noRev (name : String) (centers : List ℚ)
    (bounds : Option (List (ℚ × ℚ))) (values : List ℚ) (retf : Bool)
    (n1 : ℕ) (edges : List ℚ)
    (h : coordEdges name centers bounds = .ok (n1, edges, false)) :
    get_coord_indexes name centers bounds values retf =
      .ok (if retf then
             .withFracs (values.map (fun v => (resolveValue n1 edges v).1))
                        (values.map (fun v => (resolveValue n1 edges v).2))
           else .plain (values.map (fun v => (resolveValue n1 edges v).1))) := by
  cases retf <;> simp [get_coord_indexes, h, List.map_map, Function.comp]

theorem get_coord_indexes_rev (name : String) (centers : List ℚ)
    (bounds : Option (List (ℚ × ℚ))) (values : List ℚ) (retf : Bool)
    (n1 : ℕ) (edges : List ℚ)
    (h : coordEdges name centers bounds = .ok (n1, edges, true)) :
    get_coord_indexes name centers bounds values retf =
      .ok (if retf then
             .withFracs (values.map (fun v => (resolveValue n1 edges v).1)).reverse
                        (values.map (fun v => (resolveValue n1 edges v).2)).reverse
           else .plain (values.map (fun v => (resolveValue n1 edges v).1)).reverse) := by
  cases retf <;> simp [get_coord_indexes, h, List.map_map, Function.comp]

/-- C1: For every axis whose prepared cell-edge array is strictly
increasing and not reversed (as built from explicit bounds or inferred from
center half-deltas by `coordEdges`), `get_coord_indexes` maps every query
value through `resolveValue`, and `resolveValue` returns the sentinel `-1`
for a query strictly below the first or strictly above the last edge, index
`n1 - 1` with fraction `1` for a query exactly on the last edge, and index
`k` with the query's linear position inside cell `k` as fraction otherwise;
on the concrete axis with bounds `[[10,20],[20,30],[30,40],[40,50]]`,
query 25 gives index 1 fraction 1/2, query 5 gives -1, and query 50 gives
index 3 fraction 1. -/
theorem coord_index_resolution_spec
    (name : String) (centers : List ℚ) (bounds : Option (List (ℚ × ℚ)))
    (n1 : ℕ) (edges : List ℚ) (values : List ℚ) (v : ℚ)
    (hedges : coordEdges name centers bounds = .ok (n1, edges, false))
    (hs : edges.Sorted (· < ·)) (hlen : edges.length = n1 + 1) :
    (get_coord_indexes name centers bounds values true =
       .ok (.withFracs (values.map (fun w => (resolveValue n1 edges w).1))
                       (values.map (fun w => (resolveValue n1 edges w).2))))
    ∧ (v < edges.headD 0 → resolveValue n1 edges v = (-1, 0))
    ∧ (edges.getLastD 0 < v → resolveValue n1 edges v = (-1, 0))
    ∧ (v = edges.getLastD 0 → resolveValue n1 edges v = ((n1 : ℤ) - 1, 1))
    ∧ (∀ (k : ℕ) (a b : ℚ), edges[k]? = some a → edges[k + 1]? = some b →
        a ≤ v → v < b → resolveValue n1 edges v = ((k : ℤ), (v - a) / (b - a)))
    ∧ get_coord_indexes "lat" [15, 25, 35, 45]
        (some [(10, 20), (20, 30), (30, 40), (40, 50)]) [25, 5, 50] true =
        .ok (.withFracs [1, -1, 3] [1 / 2, 0, 1]) := by
  obtain ⟨e0, rest, hcons⟩ : ∃ e0 rest, edges = e0 :: rest := by
    cases edges with
    | nil => simp at hlen
    | cons e0 rest => exact ⟨e0, rest, rfl⟩
  have hexample : get_coord_indexes "lat" [15, 25, 35, 45]
      (some [(10, 20), (20, 30), (30, 40), (40, 50)]) [25, 5, 50] true =
      .ok (.withFracs [1, -1, 3] [1 / 2, 0, 1]) := by
    have hed : coordEdges "lat" [15, 25, 35, 45]
        (some [(10, 20), (20, 30), (30, 40), (40, 50)]) =
        .ok (4, [10, 20, 30, 40, 50], false) := by
      rw [coordEdges_bounds_inc "lat" [15, 25, 35, 45] (10, 20)
        [(20, 30), (30, 40), (40, 50)] (by norm_num)]
      rfl
    have heq := get_coord_indexes_noRev "lat" [15, 25, 35, 45]
      (some [(10, 20), (20, 30), (30, 40), (40, 50)]) [25, 5, 50] true
      4 [10, 20, 30, 40, 50] hed
    have e1 : resolveValue 4 [10, 20, 30, 40, 50] 25 = (1, 1 / 2) := by
      have h := resolveValue_cell 4 [10, 20, 30, 40, 50] 25 1 20 30
        (by decide) rfl (by decide) (by decide) (by norm_num) (by norm_num)
      rw [h]; norm_num
    have e2 : resolveValue 4 [10, 20, 30, 40, 50] 5 = (-1, 0) :=
      resolveValue_below 4 10 [20, 30, 40, 50] 5 (by norm_num)
    have e3 : resolveValue 4 [10, 20, 30, 40, 50] 50 = (3, 1) := by
      have h := resolveValue_last 4 10 [20, 30, 40, 50] 50 (by decide) rfl rfl
      rw [h]; norm_num
    rw [heq]
    simp [e1, e2, e3]
  refine ⟨?_, ?_, ?_, ?_, ?_, hexample⟩
  · have := get_coord_indexes_noRev name centers bounds values true n1 edges hedges
    simpa using this
  · intro hbelow
    rw [hcons] at hbelow ⊢
    exact resolveValue_below n1 e0 rest v (by simpa using hbelow)
  · intro habove
    rw [hcons] at habove ⊢
    exact resolveValue_above n1 e0 rest v (hcons ▸ hs) habove
  · intro hlast
    rw [hcons] at hlast ⊢
    exact resolveValue_last n1 e0 rest v (hcons ▸ hs)
      (by rw [hcons] at hlen; simpa using hlen) hlast
  · intro k a b ha hb hav hvb
    exact resolveValue_cell n1 edges v k a b hs hlen ha hb hav hvb

/-- Witness for C1 at the concrete example axis: query 25 lies in cell 1 of
the edge array `[10,20,30,40,50]` and resolves to index 1, fraction 1/2. -/
theorem coord_index_resolution_spec_witness :
    resolveValue 4 [10, 20, 30, 40, 50] 25 = ((1 : ℤ), 1 / 2) := by
  have hed : coordEdges "lat" [15, 25, 35, 45]
      (some [(10, 20), (20, 30), (30, 40), (40, 50)]) =
      .ok (4, [10, 20, 30, 40, 50], false) := by
    rw [coordEdges_bounds_inc "lat" [15, 25, 35, 45] (10, 20)
      [(20, 30), (30, 40), (40, 50)] (by norm_num)]
    rfl
  have h := (coord_index_resolution_spec "lat" [15, 25, 35, 45]
    (some [(10, 20), (20, 30), (30, 40), (40, 50)]) 4
    [10, 20, 30, 40, 50] [25, 5, 50] 25 hed (by decide) rfl).2.2.2.2.1
    1 20 30 (by decide) (by decide) (by norm_num) (by norm_num)
  rw [h]; norm_num

/-- C8: A coordinate variable of size 1 without a usable bounds variable
makes `get_coord_indexes` fail with the cell-boundaries error naming the
variable, for every query vector and for both `ret_fractions` settings; no
default cell width is ever assumed. -/
theorem degenerate_axis_hard_error (name : String) (c : ℚ) (values : List ℚ)
    (retf : Bool) :
    get_coord_indexes name [c] none values retf =
      .error ("cannot determine cell boundaries for coordinate variable "
        ++ name ++ " of size " ++ "1") := by
  have h0 : get_coord_indexes name [c] none values retf =
      .error ("cannot determine cell boundaries for coordinate variable "
        ++ name ++ " of size " ++ toString ([c] : List ℚ).length) := rfl
  have h1 : toString ([c] : List ℚ).length = toString (1 : ℕ) := rfl
  have h2 : toString (1 : ℕ) = "1" := rfl
  rw [h0, h1, h2]

/-- C9: For a variable with more than 2 axes the label-count check of
`get_ml_dataset_tile` succeeds exactly when the number of supplied
non-spatial labels is `ndim - 2`; in particular a 3-axis variable passes
with one label and fails with zero or two labels. -/
theorem tile_label_count_check (nm : String) (ndim : ℕ)
    (labels : List (String × ℚ)) (h : 2 < ndim) :
    (selectPlaneLabels nm ndim labels = .ok () ↔ labels.length = ndim - 2)
    ∧ selectPlaneLabels nm 3 [("time", 0)] = .ok ()
    ∧ selectPlaneLabels nm 3 [] = .error "AssertionError"
    ∧ selectPlaneLabels nm 3 [("time", 0), ("depth", 1)] =
        .error "AssertionError" := by
  have hne : ¬ ndim = 2 := by omega
  refine ⟨?_, rfl, rfl, rfl⟩
  constructor
  · intro hok
    by_contra hlen
    simp [selectPlaneLabels, hne, h, hlen] at hok
  · intro hlen
    simp [selectPlaneLabels, hne, h, hlen]

/-- Witness for C9: a 3-axis variable with exactly one non-spatial label
passes the count check. -/
theorem tile_label_count_check_witness :
    selectPlaneLabels "chl" 3 [("time", 0)] = .ok () ∧ 2 < 3 :=
  ⟨(tile_label_count_check "chl" 3 [("time", 0)] (by norm_num)).2.1, by norm_num⟩

/-- C5: The normalization-range computation of `get_ml_dataset_tile` keeps
an explicitly supplied numeric bound and replaces a NaN bound by the
plane's own extremum, but the parameter default `None` reaches `np.isnan`,
which raises a TypeError instead of deriving the bound from the plane. -/
theorem cmap_bound_default_crashes :
    (∀ m : ℚ, resolveCmapBound m .nan = .ok (.val m))
    ∧ (∀ m q : ℚ, resolveCmapBound m (.val q) = .ok (.val q))
    ∧ resolveCmapBound 0 .pynone =
        .error "TypeError: ufunc isnan not supported for the input types" :=
  ⟨fun _ => rfl, fun _ _ => rfl, rfl⟩

/-- C6: Whenever the value-extraction part of `get_cube_values` succeeds,
calling it with `include_indexes = True` does not append the index columns
but fails with the TypeError of the misused `pd.concat(values, indexes)`
call of api.py line 351. -/
theorem include_indexes_concat_error (cube : CubeModel)
    (indexes : List (String × List ℤ)) (vals : List (String × List (Option ℚ)))
    (h : get_cube_values cube indexes false = .ok vals) :
    get_cube_values cube indexes true =
      .error "TypeError: first argument must be an iterable of pandas objects, you passed an object of type DataFrame" := by
  unfold get_cube_values at h ⊢
  cases hc : get_cube_values_core cube indexes with
  | error e => rw [hc] at h; simp at h
  | ok values => simp [pdConcatDfAsObjs]

/-- Witness for C6: a one-dimensional cube whose extraction succeeds still
gets the TypeError as soon as index columns are requested. -/
theorem include_indexes_concat_error_witness :
    get_cube_values ⟨["time"], [("time", ⟨[1 / 2], none⟩)], [("a", fun _ => 7)]⟩
      [("time", [0])] true =
      .error "TypeError: first argument must be an iterable of pandas objects, you passed an object of type DataFrame" :=
  include_indexes_concat_error _ _ [("a", [some 7])] rfl

/-! Lemmas about the image-id cache key. -/

theorem hexDigitChar_bounded_inj :
    ∀ d1, d1 < 16 → ∀ d2, d2 < 16 →
      hexDigitChar d1 = hexDigitChar d2 → d1 = d2 := by decide

theorem hexDigitChar_bounded_ne_dash : ∀ d, d < 16 → hexDigitChar d ≠ '-' := by
  decide

theorem hexMap_inj : ∀ (l1 l2 : List ℕ), (∀ x ∈ l1, x < 16) → (∀ x ∈ l2, x < 16) →
    l1.map hexDigitChar = l2.map hexDigitChar → l1 = l2 := by
  intro l1
  induction l1 with
  | nil =>
      intro l2 _ _ h
      cases l2 with
      | nil => rfl
      | cons b t => simp at h
  | cons a t ih =>
      intro l2 h1 h2 h
      cases l2 with
      | nil => simp at h
      | cons b t2 =>
          simp only [List.map_cons, List.cons.injEq] at h
          have hab : a = b :=
            hexDigitChar_bounded_inj a (h1 a (by simp)) b (h2 b (by simp)) h.1
          have ht : t = t2 :=
            ih t2 (fun x hx => h1 x (by simp [hx])) (fun x hx => h2 x (by simp [hx])) h.2
          rw [hab, ht]

theorem digits16_lt (n : ℕ) : ∀ x ∈ Nat.digits 16 n, x < 16 := by
  intro x hx
  exact Nat.digits_lt_base (by norm_num) hx

theorem hexString_data_ne_zero (n : ℕ) (h : n ≠ 0) :
    (hexString n).data = '0' :: 'x' :: ((Nat.digits 16 n).reverse.map hexDigitChar) := by
  rw [hexString, if_neg h]

theorem hexString_inj (m n : ℕ) (h : hexString m = hexString n) : m = n := by
  have hdata := congrArg String.data h
  by_cases hm : m = 0 <;> by_cases hn : n = 0
  · rw [hm, hn]
  · exfalso
    rw [hm] at hdata
    rw [hexString_data_ne_zero n hn] at hdata
    have h0 : ("0x0" : String).data = ['0', 'x', '0'] := rfl
    rw [hexString, if_pos rfl] at hdata
    rw [h0] at hdata
    simp only [List.cons.injEq] at hdata
    have hmap : ['0'] = (Nat.digits 16 n).reverse.map hexDigitChar := hdata.2.2
    have hrev : (Nat.digits 16 n).reverse = [0] := by
      cases hr : (Nat.digits 16 n).reverse with
      | nil => rw [hr] at hmap; simp at hmap
      | cons d rest =>
          rw [hr] at hmap
          cases rest with
          | cons d2 rest2 => simp at hmap
          | nil =>
              simp only [List.map_cons, List.map_nil, List.cons.injEq] at hmap
              have hd16 : d < 16 := by
                have : d ∈ Nat.digits 16 n := by
                  have : d ∈ (Nat.digits 16 n).reverse := by rw [hr]; simp
                  simpa using this
                exact digits16_lt n d this
              have : d = 0 :=
                hexDigitChar_bounded_inj d hd16 0 (by norm_num) (by rw [← hmap.1]; rfl)
              rw [this]
    have hdig : Nat.digits 16 n = [0] := by
      have := congrArg List.reverse hrev
      simpa using this
    have : n = 0 := by
      have hof := Nat.ofDigits_digits 16 n
      rw [hdig] at hof
      simpa using hof.symm
    exact hn this
  · exfalso
    rw [hn] at hdata
    rw [hexString_data_ne_zero m hm] at hdata
    have h0 : ("0x0" : String).data = ['0', 'x', '0'] := rfl
    rw [hexString, if_pos rfl] at hdata
    rw [h0] at hdata
    simp only [List.cons.injEq] at hdata
    have hmap : (Nat.digits 16 m).reverse.map hexDigitChar = ['0'] := hdata.2.2
    have hrev : (Nat.digits 16 m).reverse = [0] := by
      cases hr : (Nat.digits 16 m).reverse with
      | nil => rw [hr] at hmap; simp at hmap
      | cons d rest =>
          rw [hr] at hmap
          cases rest with
          | cons d2 rest2 => simp at hmap
          | nil =>
              simp only [List.map_cons, List.map_nil, List.cons.injEq] at hmap
              have hd16 : d < 16 := by
                have : d ∈ Nat.digits 16 m := by
                  have : d ∈ (Nat.digits 16 m).reverse := by rw [hr]; simp
                  simpa using this
                exact digits16_lt m d this
              have : d = 0 :=
                hexDigitChar_bounded_inj d hd16 0 (by norm_num) (by rw [hmap.1]; rfl)
              rw [this]
    have hdig : Nat.digits 16 m = [0] := by
      have := congrArg List.reverse hrev
      simpa using this
    have : m = 0 := by
      have hof := Nat.ofDigits_digits 16 m
      rw [hdig] at hof
      simpa using hof.symm
    exact hm this
  · rw [hexString_data_ne_zero m hm, hexString_data_ne_zero n hn] at hdata
    simp only [List.cons.injEq] at hdata
    have hmap := hdata.2.2
    have hrev := hexMap_inj _ _
      (fun x hx => digits16_lt m x (by simpa using hx))
      (fun x hx => digits16_lt n x (by simpa using hx)) hmap
    have hdig : Nat.digits 16 m = Nat.digits 16 n := by
      have := congrArg List.reverse hrev
      simpa using this
    have hom := Nat.ofDigits_digits 16 m
    have hon := Nat.ofDigits_digits 16 n
    rw [hdig, hon] at hom
    exact hom.symm

theorem hexString_no_dash (n : ℕ) : '-' ∉ (hexString n).data := by
  by_cases h : n = 0
  · rw [h, hexString, if_pos rfl]
    decide
  · rw [hexString_data_ne_zero n h]
    intro hmem
    simp only [List.mem_cons] at hmem
    rcases hmem with h0 | hx | hmap
    · exact absurd h0.symm (by decide)
    · exact absurd hx.symm (by decide)
    · rw [List.mem_map] at hmap
      obtain ⟨d, hd, hde⟩ := hmap
      have hd16 : d < 16 := digits16_lt n d (by simpa using hd)
      exact hexDigitChar_bounded_ne_dash d hd16 hde

theorem append_dash_inj : ∀ (a1 a2 t1 t2 : List Char),
    '-' ∉ a1 → '-' ∉ a2 → a1 ++ '-' :: t1 = a2 ++ '-' :: t2 → a1 = a2 := by
  intro a1
  induction a1 with
  | nil =>
      intro a2 t1 t2 _ h2 h
      cases a2 with
      | nil => rfl
      | cons y yt =>
          simp only [List.nil_append, List.cons_append, List.cons.injEq] at h
          exact absurd (by rw [h.1]; simp : '-' ∈ y :: yt) h2
  | cons x xt ih =>
      intro a2 t1 t2 h1 h2 h
      cases a2 with
      | nil =>
          simp only [List.cons_append, List.nil_append, List.cons.injEq] at h
          exact absurd (by rw [← h.1]; simp : '-' ∈ x :: xt) h1
      | cons y yt =>
          simp only [List.cons_append, List.cons.injEq] at h
          have hxy : x = y := h.1
          have := ih yt t1 t2 (fun hc => h1 (by simp [hc]))
            (fun hc => h2 (by simp [hc])) h.2
          rw [hxy, this]

theorem mkImageId_eq (d z : ℕ) (v c m M : String) (L : List (String × String)) :
    mkImageId d z v c m M L =
      hexString d ++ "-" ++ strJoin "-" (toString z :: v :: c :: m :: M
        :: L.map (fun kv => kv.1 ++ "=" ++ kv.2)) := rfl

/-- C10: The pipeline cache key `image_id` built by `get_ml_dataset_tile`
begins with the hexadecimal in-memory object id of the dataset argument,
and two keys built from distinct object ids differ whatever the remaining
parameters; the key never inspects the dataset's content, so distinct live
dataset objects (even with bit-identical content) never share a pipeline
cache entry and a cache hit requires the very same live object. -/
theorem image_id_object_identity
    (d1 d2 z1 z2 : ℕ) (v1 v2 c1 c2 m1 m2 M1 M2 : String)
    (L1 L2 : List (String × String)) :
    (∃ rest : String, mkImageId d1 z1 v1 c1 m1 M1 L1 = hexString d1 ++ rest)
    ∧ (mkImageId d1 z1 v1 c1 m1 M1 L1 = mkImageId d2 z2 v2 c2 m2 M2 L2 →
        d1 = d2) := by
  constructor
  · refine ⟨"-" ++ strJoin "-" (toString z1 :: v1 :: c1 :: m1 :: M1
      :: L1.map (fun kv => kv.1 ++ "=" ++ kv.2)), ?_⟩
    rw [mkImageId_eq, String.append_assoc]
  · intro h
    rw [mkImageId_eq, mkImageId_eq] at h
    have hdata := congrArg String.data h
    simp only [String.data_append] at hdata
    have hsplit : (hexString d1).data ++ '-' ::
        (strJoin "-" (toString z1 :: v1 :: c1 :: m1 :: M1
          :: L1.map (fun kv => kv.1 ++ "=" ++ kv.2))).data =
        (hexString d2).data ++ '-' ::
        (strJoin "-" (toString z2 :: v2 :: c2 :: m2 :: M2
          :: L2.map (fun kv => kv.1 ++ "=" ++ kv.2))).data := by
      simpa using hdata
    have heq := append_dash_inj _ _ _ _
      (hexString_no_dash d1) (hexString_no_dash d2) hsplit
    exact hexString_inj d1 d2 (String.ext heq)

/-- Witness for C10: applying the key-injectivity direction at equal
object ids. -/
theorem image_id_object_identity_witness : (5 : ℕ) = 5 :=
  (image_id_object_identity 5 5 0 0 "v" "v" "c" "c" "m" "m" "M" "M" [] []).2 rfl

/-! Lemmas about reversed axes. -/

theorem coordEdges_centers_inc (name : String) (cs : List ℚ)
    (h : 1 < cs.length) (hio : ¬ (cs.getLastD 0 - cs.headD 0 < 0)) :
    coordEdges name cs none = .ok (cs.length, edgesFromCenters cs, false) := by
  have hd : decide (cs.getLastD 0 - cs.headD 0 < 0) = false := decide_eq_false hio
  simp only [coordEdges]
  rw [if_pos h, hd]
  rfl

theorem coordEdges_centers_dec (name : String) (cs : List ℚ)
    (h : 1 < cs.length) (hio : cs.getLastD 0 - cs.headD 0 < 0) :
    coordEdges name cs none =
      .ok (cs.length, edgesFromCenters cs.reverse, true) := by
  have hd : decide (cs.getLastD 0 - cs.headD 0 < 0) = true := decide_eq_true hio
  simp only [coordEdges]
  rw [if_pos h, hd]
  rfl

/-- C2 amended: for a singleton query vector, an axis stored in decreasing
order (the same cells in reversed storage order) resolves to exactly the
same index (and fraction) as its increasing-order storage, both for an
axis with explicit bounds and for one with edges inferred from centers. -/
theorem reversed_axis_singleton_resolution
    (nm : String) (centers cs : List ℚ) (v : ℚ) (b0 : ℚ × ℚ)
    (brest : List (ℚ × ℚ)) (retf : Bool) :
    (b0.1 < b0.2 →
      ((b0 :: brest).getLastD (0, 0)).1 < ((b0 :: brest).getLastD (0, 0)).2 →
      get_coord_indexes nm centers.reverse
        (some (((b0 :: brest).reverse).map (fun pr => (pr.2, pr.1)))) [v] retf =
      get_coord_indexes nm centers (some (b0 :: brest)) [v] retf)
    ∧ (1 < cs.length → cs.headD 0 < cs.getLastD 0 →
      get_coord_indexes nm cs.reverse none [v] retf =
      get_coord_indexes nm cs none [v] retf) := by
  constructor
  · intro hinc hlast
    obtain ⟨r0, rrest, hr⟩ := List.exists_cons_of_ne_nil
      (show ((b0 :: brest).reverse).map (fun pr : ℚ × ℚ => (pr.2, pr.1)) ≠ []
        by simp)
    have hgl0 : (b0 :: brest).getLast? = some ((b0 :: brest).getLast (by simp)) :=
      List.getLast?_eq_getLast _ (by simp)
    have hgld : (b0 :: brest).getLastD (0, 0) = (b0 :: brest).getLast (by simp) := by
      rw [List.getLastD_eq_getLast?, hgl0]
      rfl
    have hhd : (((b0 :: brest).reverse).map (fun pr : ℚ × ℚ => (pr.2, pr.1))).head? =
        some (((b0 :: brest).getLastD (0, 0)).2, ((b0 :: brest).getLastD (0, 0)).1) := by
      rw [List.head?_map, List.head?_reverse, hgl0, hgld]
      rfl
    rw [hr] at hhd
    have hr0 : r0 = (((b0 :: brest).getLastD (0, 0)).2,
        ((b0 :: brest).getLastD (0, 0)).1) := by
      simpa using hhd
    have h2 : r0.2 - r0.1 < 0 := by
      rw [hr0]
      simp only
      linarith
    rw [hr]
    rw [get_coord_indexes_rev nm centers.reverse (some (r0 :: rrest)) [v] retf
      centers.reverse.length
      (edgesFromBounds (((r0 :: rrest).reverse).map (fun pr => (pr.2, pr.1))))
      (coordEdges_bounds_dec nm centers.reverse r0 rrest h2)]
    rw [get_coord_indexes_noRev nm centers (some (b0 :: brest)) [v] retf
      centers.length (edgesFromBounds (b0 :: brest))
      (coordEdges_bounds_inc nm centers b0 brest (by linarith))]
    have hfix : (((r0 :: rrest).reverse).map (fun pr : ℚ × ℚ => (pr.2, pr.1))) =
        b0 :: brest := by
      rw [← hr, ← List.map_reverse, List.reverse_reverse, List.map_map]
      have hid : ((fun pr : ℚ × ℚ => (pr.2, pr.1)) ∘ fun pr : ℚ × ℚ => (pr.2, pr.1)) =
          id := by
        funext pr
        rfl
      rw [hid, List.map_id]
    rw [hfix, List.length_reverse]
    cases retf <;> simp
  · intro hlen hhl
    have hla : cs.reverse.getLastD 0 = cs.headD 0 := by
      rw [List.getLastD_eq_getLast?, List.getLast?_reverse, List.headD_eq_head?]
    have hhe : cs.reverse.headD 0 = cs.getLastD 0 := by
      rw [List.headD_eq_head?, List.head?_reverse, List.getLastD_eq_getLast?]
    have hdec : cs.reverse.getLastD 0 - cs.reverse.headD 0 < 0 := by
      rw [hla, hhe]; linarith
    have hinc2 : ¬ (cs.getLastD 0 - cs.headD 0 < 0) := by linarith
    have hlen2 : 1 < cs.reverse.length := by
      rw [List.length_reverse]; exact hlen
    rw [get_coord_indexes_rev nm cs.reverse none [v] retf cs.reverse.length
        (edgesFromCenters cs.reverse.reverse)
        (coordEdges_centers_dec nm cs.reverse hlen2 hdec)]
    rw [get_coord_indexes_noRev nm cs none [v] retf cs.length (edgesFromCenters cs)
        (coordEdges_centers_inc nm cs hlen hinc2)]
    rw [List.reverse_reverse, List.length_reverse]
    cases retf <;> simp

/-- Counterexample to C2: on the two-cell axis with semantic cells
`[10,20]` and `[20,30]`, reversing the storage order changes the resolved
indexes of the query vector `[15, 25]` from `[0, 1]` to `[1, 0]`: the code
reverses the result array over query positions (api.py lines 499-500)
instead of leaving each query's resolution unchanged. -/
theorem reversed_axis_counterexample :
    get_coord_indexes "lat" [25, 15] (some [(30, 20), (20, 10)]) [15, 25] false =
      .ok (.plain [1, 0])
    ∧ get_coord_indexes "lat" [15, 25] (some [(10, 20), (20, 30)]) [15, 25] false =
      .ok (.plain [0, 1])
    ∧ get_coord_indexes "lat" [25, 15] (some [(30, 20), (20, 10)]) [15, 25] false ≠
      get_coord_indexes "lat" [15, 25] (some [(10, 20), (20, 30)]) [15, 25] false := by
  have e15 : resolveValue 2 [10, 20, 30] 15 = (0, 1 / 2) := by
    have h := resolveValue_cell 2 [10, 20, 30] 15 0 10 20 (by decide) rfl
      (by decide) (by decide) (by norm_num) (by norm_num)
    rw [h]; norm_num
  have e25 : resolveValue 2 [10, 20, 30] 25 = (1, 1 / 2) := by
    have h := resolveValue_cell 2 [10, 20, 30] 25 1 20 30 (by decide) rfl
      (by decide) (by decide) (by norm_num) (by norm_num)
    rw [h]; norm_num
  have hdec : get_coord_indexes "lat" [25, 15] (some [(30, 20), (20, 10)])
      [15, 25] false = .ok (.plain [1, 0]) := by
    have hed : coordEdges "lat" [25, 15] (some [(30, 20), (20, 10)]) =
        .ok (2, [10, 20, 30], true) := by
      rw [coordEdges_bounds_dec "lat" [25, 15] (30, 20) [(20, 10)] (by norm_num)]
      rfl
    rw [get_coord_indexes_rev "lat" [25, 15] (some [(30, 20), (20, 10)])
      [15, 25] false 2 [10, 20, 30] hed]
    simp [e15, e25]
  have hinc : get_coord_indexes "lat" [15, 25] (some [(10, 20), (20, 30)])
      [15, 25] false = .ok (.plain [0, 1]) := by
    have hed : coordEdges "lat" [15, 25] (some [(10, 20), (20, 30)]) =
        .ok (2, [10, 20, 30], false) := by
      rw [coordEdges_bounds_inc "lat" [15, 25] (10, 20) [(20, 30)] (by norm_num)]
      rfl
    rw [get_coord_indexes_noRev "lat" [15, 25] (some [(10, 20), (20, 30)])
      [15, 25] false 2 [10, 20, 30] hed]
    simp [e15, e25]
  refine ⟨hdec, hinc, ?_⟩
  rw [hdec, hinc]
  simp

/-- Witness for the amended C2: a singleton query against the reversed
two-cell axis resolves exactly like the increasing storage. -/
theorem reversed_axis_singleton_resolution_witness :
    get_coord_indexes "lat" ([15, 25] : List ℚ).reverse
      (some ((([(10, 20), (20, 30)] : List (ℚ × ℚ)).reverse).map
        (fun pr => (pr.2, pr.1)))) [25] false =
    get_coord_indexes "lat" [15, 25] (some [(10, 20), (20, 30)]) [25] false :=
  (reversed_axis_singleton_resolution "lat" [15, 25] [15, 25] 25 (10, 20)
    [(20, 30)] false).1 (by decide) (by decide)

/-! Lemmas about the point-index resolution loop. -/

theorem get_coord_indexes_ok (nm : String) (cv : CoordVar) (vals : List ℚ)
    (retf : Bool) (h : ResolvableAxis cv) :
    ∃ r, get_coord_indexes nm cv.centers cv.bounds vals retf = .ok r := by
  rcases h with ⟨b0, brest, hb⟩ | ⟨hb, hlen⟩
  · rw [hb]
    by_cases hrev : b0.2 - b0.1 < 0
    · exact ⟨_, get_coord_indexes_rev nm cv.centers _ vals retf _ _
        (coordEdges_bounds_dec nm cv.centers b0 brest hrev)⟩
    · exact ⟨_, get_coord_indexes_noRev nm cv.centers _ vals retf _ _
        (coordEdges_bounds_inc nm cv.centers b0 brest hrev)⟩
  · rw [hb]
    by_cases hrev : cv.centers.getLastD 0 - cv.centers.headD 0 < 0
    · exact ⟨_, get_coord_indexes_rev nm cv.centers none vals retf _ _
        (coordEdges_centers_dec nm cv.centers hlen hrev)⟩
    · exact ⟨_, get_coord_indexes_noRev nm cv.centers none vals retf _ _
        (coordEdges_centers_inc nm cv.centers hlen hrev)⟩

theorem gcpiGo_mismatch (coords : List (String × CoordVar))
    (points : List (String × List ℚ)) (f0 : String) (L : ℕ)
    (hf0 : ((alookup points f0).getD []).length = L) :
    ∀ (pre : List String),
    (∀ d ∈ pre, (∃ cv, alookup coords d = some cv ∧ ResolvableAxis cv) ∧
       ∃ col, alookup points d = some col ∧ col.length = L) →
    ∀ (dk : String) (post : List String) (cvk : CoordVar) (colk : List ℚ),
    alookup coords dk = some cvk → alookup points dk = some colk →
    colk.length ≠ L →
    gcpiGo coords points (some f0) (pre ++ dk :: post) =
      .error (lengthMismatchMsg f0 L dk colk.length) := by
  intro pre
  induction pre with
  | nil =>
      intro _ dk post cvk colk hcv hcol hne
      simp only [List.nil_append, gcpiGo, hcv, hcol, hf0]
      rw [if_pos (Ne.symm hne)]
  | cons d pre' ih =>
      intro hpre dk post cvk colk hcv hcol hne
      obtain ⟨⟨cvd, hcvd, hres⟩, cold, hcold, hlend⟩ := hpre d (by simp)
      obtain ⟨r, hr⟩ := get_coord_indexes_ok d cvd cold false hres
      have hnotne : ¬ (((alookup points f0).getD []).length ≠ cold.length) := by
        rw [hf0, hlend]
        simp
      have htail := ih (fun x hx => hpre x (by simp [hx])) dk post cvk colk hcv
        hcol hne
      simp only [List.cons_append, gcpiGo, hcvd, hcold, if_neg hnotne, hr,
        Option.getD_some, List.append_eq, htail]

/-- C7 amended: when every required column is present, every axis before
the offending column is resolvable (has usable bounds or size above 1), and
a later column's length differs from the first required column's length,
`get_cube_point_indexes` raises the length-mismatch error naming the first
column and the first offending column together with both lengths.  (The
amendment adds the resolvability proviso: an unresolvable earlier axis
raises its own cell-boundaries error first, see the counterexample.) -/
theorem point_indexes_length_mismatch
    (dims0 : String) (pre post : List String) (dk : String)
    (coords : List (String × CoordVar)) (vars : List (String × (List ℕ → ℚ)))
    (points : List (String × List ℚ)) (cv0 cvk : CoordVar)
    (col0 colk : List ℚ)
    (h0c : alookup coords dims0 = some cv0) (h0r : ResolvableAxis cv0)
    (h0p : alookup points dims0 = some col0)
    (hpre : ∀ d ∈ pre, (∃ cv, alookup coords d = some cv ∧ ResolvableAxis cv) ∧
       ∃ col, alookup points d = some col ∧ col.length = col0.length)
    (hkc : alookup coords dk = some cvk) (hkp : alookup points dk = some colk)
    (hne : colk.length ≠ col0.length) :
    get_cube_point_indexes ⟨dims0 :: pre ++ dk :: post, coords, vars⟩ points =
      .error (lengthMismatchMsg dims0 col0.length dk colk.length) := by
  obtain ⟨r, hr⟩ := get_coord_indexes_ok dims0 cv0 col0 false h0r
  have hf0 : ((alookup points dims0).getD []).length = col0.length := by
    rw [h0p]
    rfl
  have htail := gcpiGo_mismatch coords points dims0 col0.length hf0 pre hpre
    dk post cvk colk hkc hkp hne
  rw [get_cube_point_indexes]
  simp only [gcpiGo, h0c, h0p, hr, htail, Option.getD_none, List.append_eq,
    List.cons_append]

/-- Counterexample to C7: a valid-shaped cube whose first axis has size 1
and no bounds resolves that axis before checking later column lengths, so
a mismatched point set gets the cell-boundaries error, not the
length-mismatch error the claim promises. -/
theorem point_indexes_length_mismatch_counterexample :
    get_cube_point_indexes
      ⟨["time", "lat"], [("time", ⟨[0], none⟩), ("lat", ⟨[1, 3], none⟩)],
        [("v", fun _ => 0)]⟩
      [("time", [0, 0]), ("lat", [1])] =
      .error ("cannot determine cell boundaries for coordinate variable "
        ++ "time" ++ " of size " ++ "1")
    ∧ ("cannot determine cell boundaries for coordinate variable "
        ++ "time" ++ " of size " ++ "1") ≠ lengthMismatchMsg "time" 2 "lat" 1 := by
  constructor
  · have h0 : get_cube_point_indexes
        ⟨["time", "lat"], [("time", ⟨[0], none⟩), ("lat", ⟨[1, 3], none⟩)],
          [("v", fun _ => 0)]⟩
        [("time", [0, 0]), ("lat", [1])] =
        .error ("cannot determine cell boundaries for coordinate variable "
          ++ "time" ++ " of size " ++ toString ([(0 : ℚ)] : List ℚ).length) := rfl
    have h1 : toString ([(0 : ℚ)] : List ℚ).length = toString (1 : ℕ) := rfl
    have h2 : toString (1 : ℕ) = "1" := rfl
    rw [h0, h1, h2]
  · decide

/-- Witness for the amended C7: a cube with two resolvable axes and a
point set whose second column is shorter than the first gets the
length-mismatch error naming both columns and both lengths. -/
theorem point_indexes_length_mismatch_witness :
    get_cube_point_indexes
      ⟨["time", "lat"], [("time", ⟨[1, 3], none⟩), ("lat", ⟨[1, 3], none⟩)],
        [("v", fun _ => 0)]⟩
      [("time", [0, 0]), ("lat", [1])] =
      .error (lengthMismatchMsg "time" 2 "lat" 1) := by
  have h := point_indexes_length_mismatch "time" [] [] "lat"
    [("time", ⟨[1, 3], none⟩), ("lat", ⟨[1, 3], none⟩)] [("v", fun _ => 0)]
    [("time", [0, 0]), ("lat", [1])] ⟨[1, 3], none⟩ ⟨[1, 3], none⟩
    [0, 0] [1] rfl (Or.inr ⟨rfl, by decide⟩) rfl (by simp) rfl rfl (by decide)
  simpa using h

/-! Lemmas about value gathering. -/

theorem npTupleIndex_ok : ∀ (sizes : List ℕ) (row : List ℤ),
    List.Forall₂ (fun (e : ℤ) (n : ℕ) => 0 ≤ e ∧ e < (n : ℤ)) row sizes →
    npTupleIndex sizes row = .ok (row.map Int.toNat) := by
  intro sizes row h
  induction h with
  | nil => rfl
  | @cons e n es ss hd _ ih =>
      simp only [npTupleIndex, ih, if_pos hd, List.map_cons]

theorem gatherRowValue_spec (sizes : List ℕ) (f : List ℕ → ℚ) (row : List ℤ)
    (h : List.Forall₂ (fun (e : ℤ) (n : ℕ) => e = -1 ∨ (0 ≤ e ∧ e < (n : ℤ)))
      row sizes) :
    gatherRowValue sizes f row =
      .ok (if (-1 : ℤ) ∈ row then none else some (f (row.map Int.toNat))) := by
  by_cases hm : (-1 : ℤ) ∈ row
  · simp [gatherRowValue, hm]
  · have h' : List.Forall₂ (fun (e : ℤ) (n : ℕ) => 0 ≤ e ∧ e < (n : ℤ)) row sizes := by
      clear f
      induction h with
      | nil => exact List.Forall₂.nil
      | @cons e n es ss hd _ ih =>
          have hne : e ≠ -1 := fun hc => hm (by simp [hc])
          have htl : (-1 : ℤ) ∉ es := fun hc => hm (by simp [hc])
          exact List.Forall₂.cons (hd.resolve_left hne) (ih htl)
    rw [gatherRowValue, if_neg hm, npTupleIndex_ok sizes row h', if_neg hm]

theorem mapM_ok_of_ok {α β : Type} (g : α → Except String β) (h' : α → β) :
    ∀ (l : List α), (∀ x ∈ l, g x = .ok (h' x)) →
    l.mapM g = .ok (l.map h') := by
  intro l
  induction l with
  | nil => intro _; rfl
  | cons a t ih =>
      intro h
      rw [List.mapM_cons, h a (by simp), ih (fun x hx => h x (by simp [hx]))]
      rfl

theorem get_cube_values_core_eval (cube : CubeModel)
    (indexes : List (String × List ℤ)) (N : ℕ)
    (hfind : cube.dims.find? (fun d => (alookup indexes d).isNone) = none)
    (hnum : ((cube.dims.map (fun d => (alookup indexes d).getD [])).headD
      []).length = N)
    (hvalid : ∀ i, i < N →
      List.Forall₂ (fun (e : ℤ) (n : ℕ) => e = -1 ∨ (0 ≤ e ∧ e < (n : ℤ)))
        (cube.dims.map (fun d => ((alookup indexes d).getD []).getD i 0))
        (cubeSizes cube)) :
    get_cube_values_core cube indexes =
      .ok (cube.vars.map (fun nf => (nf.1, (List.range N).map (fun i =>
        if (-1 : ℤ) ∈ cube.dims.map (fun d => ((alookup indexes d).getD []).getD i 0)
        then none
        else some (nf.2 ((cube.dims.map
          (fun d => ((alookup indexes d).getD []).getD i 0)).map Int.toNat)))))) := by
  have hrow : ∀ i : ℕ,
      (cube.dims.map (fun d => (alookup indexes d).getD [])).map
        (fun c => c.getD i 0) =
      cube.dims.map (fun d => ((alookup indexes d).getD []).getD i 0) := by
    intro i
    rw [List.map_map]
    rfl
  simp only [get_cube_values_core, hfind, hnum]
  apply mapM_ok_of_ok
  intro nf _
  have hinner : (List.range N).mapM (fun i =>
      gatherRowValue (cubeSizes cube) nf.2
        ((cube.dims.map (fun d => (alookup indexes d).getD [])).map
          (fun c => c.getD i 0))) =
      .ok ((List.range N).map (fun i =>
        if (-1 : ℤ) ∈ cube.dims.map (fun d => ((alookup indexes d).getD []).getD i 0)
        then none
        else some (nf.2 ((cube.dims.map
          (fun d => ((alookup indexes d).getD []).getD i 0)).map Int.toNat)))) := by
    apply mapM_ok_of_ok
    intro i hi
    rw [hrow i]
    exact gatherRowValue_spec (cubeSizes cube) nf.2 _
      (hvalid i (List.mem_range.mp hi))
  rw [hinner]

theorem get_cube_values_false_eval (cube : CubeModel)
    (indexes : List (String × List ℤ)) (vals : List (String × List (Option ℚ)))
    (h : get_cube_values_core cube indexes = .ok vals) :
    get_cube_values cube indexes false = .ok vals := by
  rw [get_cube_values, h]
  rfl

/-- C4: For an index frame that holds one column per cube dimension, all
of one length, with every entry either the sentinel `-1` or a valid index,
`get_cube_values` returns one column per data variable in which row `i` is
not-a-number (modelled `none`) for every variable whenever row `i`'s index
tuple contains the sentinel, and otherwise each variable's stored value at
exactly that index tuple; the rows stay in input order and no out-of-range
coordinate ever raises. -/
theorem cube_values_sentinel_rows
    (cube : CubeModel) (indexes : List (String × List ℤ)) (N : ℕ)
    (d0 : String) (drest : List String) (hdims : cube.dims = d0 :: drest)
    (hpresent : ∀ d ∈ cube.dims, (alookup indexes d).isSome)
    (hlen : ∀ d ∈ cube.dims, ((alookup indexes d).getD []).length = N)
    (hvalid : ∀ i, i < N →
      List.Forall₂ (fun (e : ℤ) (n : ℕ) => e = -1 ∨ (0 ≤ e ∧ e < (n : ℤ)))
        (cube.dims.map (fun d => ((alookup indexes d).getD []).getD i 0))
        (cubeSizes cube)) :
    get_cube_values cube indexes false =
      .ok (cube.vars.map (fun nf => (nf.1, (List.range N).map (fun i =>
        if (-1 : ℤ) ∈ cube.dims.map (fun d => ((alookup indexes d).getD []).getD i 0)
        then none
        else some (nf.2 ((cube.dims.map
          (fun d => ((alookup indexes d).getD []).getD i 0)).map Int.toNat)))))) := by
  apply get_cube_values_false_eval
  apply get_cube_values_core_eval cube indexes N
  · rw [List.find?_eq_none]
    intro d hd
    have := hpresent d hd
    simp only [Option.isNone]
    cases halo : alookup indexes d with
    | none => rw [halo] at this; simp at this
    | some _ => simp
  · rw [hdims]
    simp only [List.map_cons, List.headD_cons]
    exact hlen d0 (by rw [hdims]; simp)
  · exact hvalid

/-- Witness for C4: a two-row index frame over a 2-dimensional cube; the
first row gathers the stored value, the second contains the sentinel and
yields not-a-number. -/
theorem cube_values_sentinel_rows_witness :
    get_cube_values
      ⟨["time", "lat"], [("time", ⟨[5], none⟩), ("lat", ⟨[0, 1], none⟩)],
        [("a", fun p => (p.getD 1 0 : ℚ))]⟩
      [("time", [0, -1]), ("lat", [1, 0])] false =
      .ok [("a", [some 1, none])] := by
  have h := cube_values_sentinel_rows
    ⟨["time", "lat"], [("time", ⟨[5], none⟩), ("lat", ⟨[0, 1], none⟩)],
      [("a", fun p => (p.getD 1 0 : ℚ))]⟩
    [("time", [0, -1]), ("lat", [1, 0])] 2 "time" ["lat"] rfl
    (by decide) (by decide) (by decide)
  rw [h]
  rfl

/-! Lemmas about the mesh of cell positions. -/

theorem flatMap_congr {α β : Type} (l : List α) (f g : α → List β)
    (h : ∀ a ∈ l, f a = g a) : l.flatMap f = l.flatMap g := by
  induction l with
  | nil => rfl
  | cons a t ih =>
      rw [List.flatMap_cons, List.flatMap_cons, h a (by simp),
        ih (fun x hx => h x (by simp [hx]))]

theorem range_reverse_map (n : ℕ) :
    (List.range n).reverse = (List.range n).map (fun i => n - 1 - i) := by
  have h := List.reverse_range' 0 n
  rw [← List.range_eq_range'] at h
  simpa using h

theorem meshIdx_reverse : ∀ (ns : List ℕ),
    (meshIdx ns).reverse = (meshIdx ns).map (compTuple ns) := by
  intro ns
  induction ns with
  | nil => rfl
  | cons n ns ih =>
      rw [meshIdx, List.reverse_flatMap, range_reverse_map, List.flatMap_map,
        List.map_flatMap]
      apply flatMap_congr
      intro i hi
      simp only [Function.comp]
      rw [← List.map_reverse, ih, List.map_map, List.map_map]
      apply List.map_congr_left
      intro p _
      simp only [Function.comp, compTuple, List.zipWith_cons_cons]

theorem meshIdx_mem : ∀ (ns : List ℕ) (p : List ℕ), p ∈ meshIdx ns →
    List.Forall₂ (fun x n => x < n) p ns := by
  intro ns
  induction ns with
  | nil =>
      intro p hp
      simp only [meshIdx, List.mem_singleton] at hp
      rw [hp]
      exact List.Forall₂.nil
  | cons n ns ih =>
      intro p hp
      rw [meshIdx, List.mem_flatMap] at hp
      obtain ⟨i, hi, hmem⟩ := hp
      rw [List.mem_map] at hmem
      obtain ⟨q, hq, rfl⟩ := hmem
      exact List.Forall₂.cons (List.mem_range.mp hi) (ih q hq)

theorem forall₂_lt_getD : ∀ (p ns : List ℕ), List.Forall₂ (fun x n => x < n) p ns →
    ∀ d, d < ns.length → p.getD d 0 < ns.getD d 0 := by
  intro p ns h
  induction h with
  | nil => intro d hd; simp at hd
  | @cons x n xs nss hxn _ ih =>
      intro d hd
      cases d with
      | zero => simpa using hxn
      | succ d' =>
          simp only [List.getD_cons_succ]
          exact ih d' (by simpa using hd)

theorem compTuple_getD : ∀ (ns p : List ℕ),
    List.Forall₂ (fun x n => x < n) p ns → ∀ d, d < ns.length →
    (compTuple ns p).getD d 0 = ns.getD d 0 - 1 - p.getD d 0 := by
  intro ns p h
  induction h with
  | nil => intro d hd; simp at hd
  | @cons x n xs nss _ _ ih =>
      intro d hd
      cases d with
      | zero => simp [compTuple, List.zipWith_cons_cons]
      | succ d' =>
          simp only [compTuple, List.zipWith_cons_cons, List.getD_cons_succ]
          exact ih d' (by simpa using hd)

theorem edgesFromBounds_length (bs : List (ℚ × ℚ)) :
    (edgesFromBounds bs).length = bs.length + 1 := by
  simp [edgesFromBounds]

theorem edgesFromCenters_length (cc : List ℚ) (h : 1 ≤ cc.length) :
    (edgesFromCenters cc).length = cc.length + 1 := by
  simp only [edgesFromCenters, List.length_zipWith, List.length_append,
    List.length_cons, List.length_nil, List.length_tail]
  omega

theorem get_coord_indexes_false_noRev (name : String) (centers : List ℚ)
    (bounds : Option (List (ℚ × ℚ))) (values : List ℚ) (n1 : ℕ) (edges : List ℚ)
    (h : coordEdges name centers bounds = .ok (n1, edges, false)) :
    get_coord_indexes name centers bounds values false =
      .ok (.plain (values.map (fun v => (resolveValue n1 edges v).1))) := by
  rw [get_coord_indexes_noRev name centers bounds values false n1 edges h]
  rfl

theorem get_coord_indexes_false_rev (name : String) (centers : List ℚ)
    (bounds : Option (List (ℚ × ℚ))) (values : List ℚ) (n1 : ℕ) (edges : List ℚ)
    (h : coordEdges name centers bounds = .ok (n1, edges, true)) :
    get_coord_indexes name centers bounds values false =
      .ok (.plain (values.map (fun v => (resolveValue n1 edges v).1)).reverse) := by
  rw [get_coord_indexes_rev name centers bounds values false n1 edges h]
  rfl

theorem mesh_resolveValue_map (ns : List ℕ) (d m : ℕ) (cs edges : List ℚ)
    (hd : d < ns.length) (hnd : ns.getD d 0 = m)
    (hsorted : edges.Sorted (· < ·)) (hel : edges.length = m + 1)
    (hcells : ∀ x, x < m →
      edges.getD x 0 ≤ cs.getD x 0 ∧ cs.getD x 0 < edges.getD (x + 1) 0) :
    ((meshIdx ns).map (fun p => cs.getD (p.getD d 0) 0)).map
      (fun v => (resolveValue m edges v).1) =
    (meshIdx ns).map (fun p => ((p.getD d 0 : ℕ) : ℤ)) := by
  rw [List.map_map]
  apply List.map_congr_left
  intro p hp
  simp only [Function.comp]
  have hy : p.getD d 0 < m := by
    rw [← hnd]
    exact forall₂_lt_getD p ns (meshIdx_mem ns p hp) d hd
  obtain ⟨hle, hlt⟩ := hcells (p.getD d 0) hy
  have ha : edges[p.getD d 0]? = some (edges.getD (p.getD d 0) 0) :=
    getElem?_of_lt_getD _ _ (by omega)
  have hbp : edges[p.getD d 0 + 1]? = some (edges.getD (p.getD d 0 + 1) 0) :=
    getElem?_of_lt_getD _ _ (by omega)
  rw [resolveValue_cell m edges (cs.getD (p.getD d 0) 0) (p.getD d 0) _ _
    hsorted hel ha hbp hle hlt]

theorem mesh_resolveValue_map_rev (ns : List ℕ) (d m : ℕ) (cs edges : List ℚ)
    (hd : d < ns.length) (hnd : ns.getD d 0 = m)
    (hsorted : edges.Sorted (· < ·)) (hel : edges.length = m + 1)
    (hcells : ∀ x, x < m →
      edges.getD x 0 ≤ cs.getD (m - 1 - x) 0 ∧
      cs.getD (m - 1 - x) 0 < edges.getD (x + 1) 0) :
    (((meshIdx ns).map (fun p => cs.getD (p.getD d 0) 0)).map
      (fun v => (resolveValue m edges v).1)).reverse =
    (meshIdx ns).map (fun p => ((p.getD d 0 : ℕ) : ℤ)) := by
  rw [List.map_map]
  have hpd_lt : ∀ p ∈ meshIdx ns, p.getD d 0 < m := by
    intro p hp
    rw [← hnd]
    exact forall₂_lt_getD p ns (meshIdx_mem ns p hp) d hd
  have hA : (meshIdx ns).map ((fun v => (resolveValue m edges v).1)
      ∘ (fun p => cs.getD (p.getD d 0) 0)) =
      (meshIdx ns).map (fun p => ((m - 1 - p.getD d 0 : ℕ) : ℤ)) := by
    apply List.map_congr_left
    intro p hp
    simp only [Function.comp]
    have hy := hpd_lt p hp
    have hx : m - 1 - (m - 1 - p.getD d 0) = p.getD d 0 := by omega
    obtain ⟨hle, hlt⟩ := hcells (m - 1 - p.getD d 0) (by omega)
    rw [hx] at hle hlt
    have ha : edges[m - 1 - p.getD d 0]? =
        some (edges.getD (m - 1 - p.getD d 0) 0) :=
      getElem?_of_lt_getD _ _ (by omega)
    have hbp : edges[m - 1 - p.getD d 0 + 1]? =
        some (edges.getD (m - 1 - p.getD d 0 + 1) 0) :=
      getElem?_of_lt_getD _ _ (by omega)
    rw [resolveValue_cell m edges (cs.getD (p.getD d 0) 0) (m - 1 - p.getD d 0)
      _ _ hsorted hel ha hbp hle hlt]
  rw [hA, ← List.map_reverse, meshIdx_reverse, List.map_map]
  apply List.map_congr_left
  intro p hp
  simp only [Function.comp]
  have h2 := compTuple_getD ns p (meshIdx_mem ns p hp) d hd
  have hy := hpd_lt p hp
  rw [h2, hnd]
  congr 1
  omega

theorem axis_mesh_resolution (nm : String) (cv : CoordVar) (ns : List ℕ) (d : ℕ)
    (hv : ValidAxis cv) (hd : d < ns.length)
    (hnd : ns.getD d 0 = cv.centers.length) :
    get_coord_indexes nm cv.centers cv.bounds
      ((meshIdx ns).map (fun p => cv.centers.getD (p.getD d 0) 0)) false =
      .ok (.plain ((meshIdx ns).map (fun p => ((p.getD d 0 : ℕ) : ℤ)))) := by
  rcases hv with ⟨bs, hb, hbne, hblen, hcase⟩ | ⟨hb, hlen1, hcase⟩
  · obtain ⟨b0, brest, rfl⟩ := List.exists_cons_of_ne_nil hbne
    rcases hcase with ⟨hinc, hsorted, hcells⟩ | ⟨hdec, hsorted, hcells⟩
    · have hinc' : ¬ (b0.2 - b0.1 < 0) := by
        simp only [List.headD_cons] at hinc
        linarith
      rw [hb, get_coord_indexes_false_noRev nm cv.centers _ _ cv.centers.length
        (edgesFromBounds (b0 :: brest))
        (coordEdges_bounds_inc nm cv.centers b0 brest hinc')]
      exact congrArg (fun l => Except.ok (CoordIdxResult.plain l))
        (mesh_resolveValue_map ns d cv.centers.length cv.centers _ hd hnd
          hsorted (by rw [edgesFromBounds_length, hblen]) hcells)
    · have hdec' : b0.2 - b0.1 < 0 := by
        simp only [List.headD_cons] at hdec
        linarith
      rw [hb, get_coord_indexes_false_rev nm cv.centers _ _ cv.centers.length
        (edgesFromBounds (((b0 :: brest).reverse).map (fun pr => (pr.2, pr.1))))
        (coordEdges_bounds_dec nm cv.centers b0 brest hdec')]
      exact congrArg (fun l => Except.ok (CoordIdxResult.plain l))
        (mesh_resolveValue_map_rev ns d cv.centers.length cv.centers _ hd hnd
          hsorted
          (by rw [edgesFromBounds_length]
              simp only [List.length_map, List.length_reverse]
              rw [hblen])
          hcells)
  · rcases hcase with ⟨hio, hsorted, hcells⟩ | ⟨hio, hsorted, hcells⟩
    · rw [hb, get_coord_indexes_false_noRev nm cv.centers none _ cv.centers.length
        (edgesFromCenters cv.centers)
        (coordEdges_centers_inc nm cv.centers hlen1 hio)]
      exact congrArg (fun l => Except.ok (CoordIdxResult.plain l))
        (mesh_resolveValue_map ns d cv.centers.length cv.centers _ hd hnd
          hsorted (edgesFromCenters_length cv.centers (by omega)) hcells)
    · rw [hb, get_coord_indexes_false_rev nm cv.centers none _ cv.centers.length
        (edgesFromCenters cv.centers.reverse)
        (coordEdges_centers_dec nm cv.centers hlen1 hio)]
      exact congrArg (fun l => Except.ok (CoordIdxResult.plain l))
        (mesh_resolveValue_map_rev ns d cv.centers.length cv.centers _ hd hnd
          hsorted
          (by rw [edgesFromCenters_length cv.centers.reverse
                (by rw [List.length_reverse]; omega), List.length_reverse])
          hcells)

/-! Lemmas about name-keyed access and the successful resolution loop. -/

theorem alookup_zip {α : Type} : ∀ (ks : List String) (vs : List α),
    ks.Nodup → ks.length = vs.length →
    ∀ j (hjk : j < ks.length) (hjv : j < vs.length),
    alookup (ks.zip vs) ks[j] = some vs[j] := by
  intro ks
  induction ks with
  | nil => intro vs _ _ j hjk _; simp at hjk
  | cons key kt ih =>
      intro vs hnd hlen j hjk hjv
      cases vs with
      | nil => simp at hlen
      | cons v vt =>
          cases j with
          | zero => simp [alookup]
          | succ j' =>
              have hj' : j' < kt.length := by simpa using hjk
              have hne : key ≠ kt[j'] := by
                intro hc
                have hmem : kt[j'] ∈ kt := List.getElem_mem hj'
                rw [← hc] at hmem
                exact (List.nodup_cons.mp hnd).1 hmem
              simp only [List.zip_cons_cons, alookup, List.getElem_cons_succ]
              rw [if_neg hne]
              exact ih vt (List.nodup_cons.mp hnd).2 (by simpa using hlen) j'
                hj' (by simpa using hjv)

theorem gcpiGo_ok (coords : List (String × CoordVar))
    (points : List (String × List ℚ)) (L : ℕ) (f0 : String)
    (hf0 : ((alookup points f0).getD []).length = L) :
    ∀ (ds : List String) (outs : List (List ℤ)),
    List.Forall₂ (fun d out => ∃ cv col, alookup coords d = some cv ∧
      alookup points d = some col ∧ col.length = L ∧
      get_coord_indexes d cv.centers cv.bounds col false = .ok (.plain out))
      ds outs →
    gcpiGo coords points (some f0) ds = .ok (ds.zip outs) := by
  intro ds outs h
  induction h with
  | nil => rfl
  | @cons d out dt outt hhead _ ih =>
      obtain ⟨cv, col, hcv, hcol, hlen, hgci⟩ := hhead
      have hnotne : ¬ (((alookup points f0).getD []).length ≠ col.length) := by
        rw [hf0, hlen]
        simp
      simp only [gcpiGo, hcv, hcol, if_neg hnotne, hgci, Option.getD_some,
        List.append_eq, ih, List.zip_cons_cons, coordIdxList]

theorem get_cube_point_indexes_ok (cube : CubeModel)
    (points : List (String × List ℚ)) (L : ℕ) (outs : List (List ℤ))
    (h : List.Forall₂ (fun d out => ∃ cv col, alookup cube.coords d = some cv ∧
      alookup points d = some col ∧ col.length = L ∧
      get_coord_indexes d cv.centers cv.bounds col false = .ok (.plain out))
      cube.dims outs) :
    get_cube_point_indexes cube points = .ok (cube.dims.zip outs) := by
  rw [get_cube_point_indexes]
  generalize hds : cube.dims = ds at h ⊢
  cases h with
  | nil => rfl
  | @cons d out dt outt hhead htail =>
      obtain ⟨cv, col, hcv, hcol, hlen, hgci⟩ := hhead
      have hf0 : ((alookup points d).getD []).length = L := by
        rw [hcol]
        simpa using hlen
      have ht := gcpiGo_ok cube.coords points L d hf0 dt outt htail
      simp only [gcpiGo, hcv, hcol, hgci, Option.getD_none, List.append_eq, ht,
        List.zip_cons_cons, coordIdxList]

theorem map_eq_range_map {β : Type} (ks : List String) (G : String → β) :
    ∀ (H : ℕ → β), (∀ j, j < ks.length → G (ks.getD j "") = H j) →
    ks.map G = (List.range ks.length).map H := by
  induction ks with
  | nil => intro H _; rfl
  | cons key kt ih =>
      intro H h
      have h0 : G key = H 0 := by simpa using h 0 (by simp)
      have ht : kt.map G = (List.range kt.length).map (fun j => H (j + 1)) :=
        ih (fun j => H (j + 1)) (fun j hj => by simpa using h (j + 1) (by simpa using hj))
      simp only [List.map_cons, List.length_cons, List.range_succ_eq_map,
        List.map_map, h0, ht]
      rfl

theorem range_map_getD {α β : Type} (dflt : α) (F : α → β) :
    ∀ (l : List α),
    (List.range l.length).map (fun i => F (l.getD i dflt)) = l.map F := by
  intro l
  induction l with
  | nil => rfl
  | cons a t ih =>
      simp only [List.length_cons, List.range_succ_eq_map, List.map_cons,
        List.getD_cons_zero, List.map_map]
      have hc : ((fun i => F ((a :: t).getD i dflt)) ∘ Nat.succ) =
          (fun i => F (t.getD i dflt)) := by
        funext i
        simp
      rw [hc, ih]

theorem roundtrip_point_indexes
    (names : List String) (axes : List CoordVar)
    (dvars : List (String × (List ℕ → ℚ)))
    (hnd : names.Nodup) (hlen : axes.length = names.length)
    (hax : ∀ cv ∈ axes, ValidAxis cv) :
    get_cube_point_indexes
      ⟨names, names.zip axes, dvars⟩
      (names.zip ((List.range names.length).map (fun j =>
        (meshIdx (axes.map (fun a => a.centers.length))).map
          (fun p => ((axes.getD j ⟨[], none⟩).centers).getD (p.getD j 0) 0)))) =
      .ok (names.zip ((List.range names.length).map (fun j =>
        (meshIdx (axes.map (fun a => a.centers.length))).map
          (fun p => ((p.getD j 0 : ℕ) : ℤ))))) := by
  apply get_cube_point_indexes_ok _ _
    (meshIdx (axes.map (fun a => a.centers.length))).length
  rw [List.forall₂_iff_get]
  constructor
  · simp
  · intro j h1 h2
    have hjn : j < names.length := by simpa using h1
    have hja : j < axes.length := by rw [hlen]; exact hjn
    have hjc : j < ((List.range names.length).map (fun j =>
        (meshIdx (axes.map (fun a => a.centers.length))).map
          (fun p => ((axes.getD j ⟨[], none⟩).centers).getD (p.getD j 0) 0))).length := by
      simpa using hjn
    have hcoords := alookup_zip names axes hnd hlen.symm j hjn hja
    have hcols := alookup_zip names _ hnd (by simp) j hjn hjc
    simp only [List.get_eq_getElem]
    refine ⟨axes[j], _, hcoords, hcols, ?_, ?_⟩
    · simp
    · have hgd : axes.getD j ⟨[], none⟩ = axes[j] := List.getD_eq_getElem _ _ hja
      have hcolj : ((List.range names.length).map (fun j =>
          (meshIdx (axes.map (fun a => a.centers.length))).map
            (fun p => ((axes.getD j ⟨[], none⟩).centers).getD (p.getD j 0) 0)))[j] =
          (meshIdx (axes.map (fun a => a.centers.length))).map
            (fun p => (axes[j].centers).getD (p.getD j 0) 0) := by
        rw [List.getElem_map, List.getElem_range, hgd]
      have houtj : ((List.range names.length).map (fun j =>
          (meshIdx (axes.map (fun a => a.centers.length))).map
            (fun p => ((p.getD j 0 : ℕ) : ℤ))))[j] =
          (meshIdx (axes.map (fun a => a.centers.length))).map
            (fun p => ((p.getD j 0 : ℕ) : ℤ)) := by
        rw [List.getElem_map, List.getElem_range]
      rw [hcolj, houtj]
      exact axis_mesh_resolution names[j] axes[j]
        (axes.map (fun a => a.centers.length)) j
        (hax axes[j] (List.getElem_mem hja))
        (by simpa using hja)
        (by rw [List.getD_eq_getElem _ _ (by simpa using hja), List.getElem_map])

theorem roundtrip_values
    (names : List String) (axes : List CoordVar)
    (dvars : List (String × (List ℕ → ℚ)))
    (hnd : names.Nodup) (hlen : axes.length = names.length) (hne : names ≠ []) :
    get_cube_values ⟨names, names.zip axes, dvars⟩
      (names.zip ((List.range names.length).map (fun j =>
        (meshIdx (axes.map (fun a => a.centers.length))).map
          (fun p => ((p.getD j 0 : ℕ) : ℤ))))) false =
      .ok (dvars.map (fun nf => (nf.1,
        (meshIdx (axes.map (fun a => a.centers.length))).map
          (fun p => some (nf.2 p))))) := by
  have hnsl : (axes.map (fun a => a.centers.length)).length = names.length := by
    rw [List.length_map, hlen]
  have houtsl : ((List.range names.length).map (fun j =>
      (meshIdx (axes.map (fun a => a.centers.length))).map
        (fun p => ((p.getD j 0 : ℕ) : ℤ)))).length = names.length := by
    simp
  have halo : ∀ j, j < names.length →
      alookup (names.zip ((List.range names.length).map (fun j =>
        (meshIdx (axes.map (fun a => a.centers.length))).map
          (fun p => ((p.getD j 0 : ℕ) : ℤ))))) (names.getD j "") =
      some ((meshIdx (axes.map (fun a => a.centers.length))).map
        (fun p => ((p.getD j 0 : ℕ) : ℤ))) := by
    intro j hj
    rw [List.getD_eq_getElem _ _ hj,
      alookup_zip names _ hnd houtsl.symm j hj (by rw [houtsl]; exact hj),
      List.getElem_map, List.getElem_range]
  have hmeshmem : ∀ i,
      i < (meshIdx (axes.map (fun a => a.centers.length))).length →
      List.Forall₂ (fun x n => x < n)
        ((meshIdx (axes.map (fun a => a.centers.length))).getD i [])
        (axes.map (fun a => a.centers.length)) := by
    intro i hi
    apply meshIdx_mem
    rw [List.getD_eq_getElem _ _ hi]
    exact List.getElem_mem hi
  have hplen : ∀ i,
      i < (meshIdx (axes.map (fun a => a.centers.length))).length →
      ((meshIdx (axes.map (fun a => a.centers.length))).getD i []).length =
        names.length := by
    intro i hi
    rw [(hmeshmem i hi).length_eq, hnsl]
  have hrow : ∀ i : ℕ,
      names.map (fun d => ((alookup (names.zip ((List.range names.length).map
        (fun j => (meshIdx (axes.map (fun a => a.centers.length))).map
          (fun p => ((p.getD j 0 : ℕ) : ℤ))))) d).getD []).getD i 0) =
      (List.range names.length).map (fun j =>
        ((((meshIdx (axes.map (fun a => a.centers.length))).getD i []).getD j 0
          : ℕ) : ℤ)) := by
    intro i
    apply map_eq_range_map
    intro j hj
    rw [halo j hj, Option.getD_some]
    by_cases hi : i < (meshIdx (axes.map (fun a => a.centers.length))).length
    · rw [List.getD_eq_getElem _ _ (by simpa using hi), List.getElem_map,
        List.getD_eq_getElem _ _ hi]
    · rw [List.getD_eq_default _ _ (by simpa using not_lt.mp hi),
        List.getD_eq_default _ _ (not_lt.mp hi)]
      simp
  have hsz : cubeSizes ⟨names, names.zip axes, dvars⟩ =
      (List.range names.length).map (fun j =>
        (axes.map (fun a => a.centers.length)).getD j 0) := by
    rw [cubeSizes]
    apply map_eq_range_map
    intro j hj
    have hja : j < axes.length := by rw [hlen]; exact hj
    rw [List.getD_eq_getElem _ _ hj, alookup_zip names axes hnd hlen.symm j hj hja]
    show axes[j].centers.length =
      (axes.map (fun a => a.centers.length)).getD j 0
    rw [List.getD_eq_getElem _ _ (by rw [hnsl]; exact hj), List.getElem_map]
  have hfind : names.find? (fun d =>
      (alookup (names.zip ((List.range names.length).map (fun j =>
        (meshIdx (axes.map (fun a => a.centers.length))).map
          (fun p => ((p.getD j 0 : ℕ) : ℤ))))) d).isNone) = none := by
    rw [List.find?_eq_none]
    intro d hd
    obtain ⟨j, hj, rfl⟩ := List.mem_iff_getElem.mp hd
    rw [show names[j] = names.getD j "" from (List.getD_eq_getElem _ _ hj).symm,
      halo j hj]
    simp
  have h0 : 0 < names.length := List.length_pos.mpr hne
  have hhead : (names.map (fun d =>
      (alookup (names.zip ((List.range names.length).map (fun j =>
        (meshIdx (axes.map (fun a => a.centers.length))).map
          (fun p => ((p.getD j 0 : ℕ) : ℤ))))) d).getD [])).headD [] =
      (alookup (names.zip ((List.range names.length).map (fun j =>
        (meshIdx (axes.map (fun a => a.centers.length))).map
          (fun p => ((p.getD j 0 : ℕ) : ℤ))))) (names.getD 0 "")).getD [] := by
    cases names with
    | nil => exact absurd rfl hne
    | cons n0 nrest => simp
  have hnum : ((names.map (fun d =>
      (alookup (names.zip ((List.range names.length).map (fun j =>
        (meshIdx (axes.map (fun a => a.centers.length))).map
          (fun p => ((p.getD j 0 : ℕ) : ℤ))))) d).getD [])).headD []).length =
      (meshIdx (axes.map (fun a => a.centers.length))).length := by
    rw [hhead, halo 0 h0, Option.getD_some, List.length_map]
  have hvalid : ∀ i,
      i < (meshIdx (axes.map (fun a => a.centers.length))).length →
      List.Forall₂ (fun (e : ℤ) (n : ℕ) => e = -1 ∨ (0 ≤ e ∧ e < (n : ℤ)))
        (names.map (fun d => ((alookup (names.zip ((List.range names.length).map
          (fun j => (meshIdx (axes.map (fun a => a.centers.length))).map
            (fun p => ((p.getD j 0 : ℕ) : ℤ))))) d).getD []).getD i 0))
        (cubeSizes ⟨names, names.zip axes, dvars⟩) := by
    intro i hi
    rw [hrow i, hsz, List.forall₂_iff_get]
    constructor
    · simp
    · intro j h1 h2
      have hj : j < names.length := by simpa using h1
      simp only [List.get_eq_getElem, List.getElem_map, List.getElem_range]
      refine Or.inr ⟨by exact_mod_cast Nat.zero_le _, ?_⟩
      have hlt := forall₂_lt_getD _ _ (hmeshmem i hi) j (by rw [hnsl]; exact hj)
      exact_mod_cast hlt
  have hcore := get_cube_values_core_eval ⟨names, names.zip axes, dvars⟩
    (names.zip ((List.range names.length).map (fun j =>
      (meshIdx (axes.map (fun a => a.centers.length))).map
        (fun p => ((p.getD j 0 : ℕ) : ℤ)))))
    (meshIdx (axes.map (fun a => a.centers.length))).length hfind hnum hvalid
  refine Eq.trans (get_cube_values_false_eval _ _ _ hcore) ?_
  refine congrArg Except.ok ?_
  apply List.map_congr_left
  intro nf _
  refine congrArg (Prod.mk nf.1) ?_
  rw [← range_map_getD [] (fun p => some (nf.2 p))
    (meshIdx (axes.map (fun a => a.centers.length)))]
  apply List.map_congr_left
  intro i hi'
  have hi : i < (meshIdx (axes.map (fun a => a.centers.length))).length :=
    List.mem_range.mp hi'
  rw [hrow i]
  have hnone : (-1 : ℤ) ∉ (List.range names.length).map (fun j =>
      ((((meshIdx (axes.map (fun a => a.centers.length))).getD i []).getD j 0
        : ℕ) : ℤ)) := by
    intro hc
    rw [List.mem_map] at hc
    obtain ⟨j, _, hj⟩ := hc
    omega
  rw [if_neg hnone]
  have hX : ((List.range names.length).map (fun j =>
      ((((meshIdx (axes.map (fun a => a.centers.length))).getD i []).getD j 0
        : ℕ) : ℤ))).map Int.toNat =
      (meshIdx (axes.map (fun a => a.centers.length))).getD i [] := by
    rw [List.map_map]
    have hcomp : (Int.toNat ∘ fun j =>
        ((((meshIdx (axes.map (fun a => a.centers.length))).getD i []).getD j 0
          : ℕ) : ℤ)) =
        (fun j => ((meshIdx (axes.map (fun a => a.centers.length))).getD i
          []).getD j 0) := by
      funext j
      simp
    rw [hcomp, show names.length =
      ((meshIdx (axes.map (fun a => a.centers.length))).getD i []).length from
        (hplen i hi).symm]
    have hid := range_map_getD 0 (fun x : ℕ => x)
      ((meshIdx (axes.map (fun a => a.centers.length))).getD i [])
    simpa using hid
  rw [hX]

/-- C3: For every valid cube — pairwise distinct dimension names, each axis
either carrying a usable bounds variable or bounds-less with more than one
center and its cell edges inferred from the centers (api.py lines 463-480),
in both cases with strictly increasing cell edges (after the internal
fix-up when the axis is stored in decreasing order) and every cell center
inside its own cell — extracting point values with `get_cube_point_values`
at the point set whose rows are exactly the cube's own cell-center
coordinate tuples returns, row for row, exactly the value stored in each
data variable at those cells. -/
theorem extract_points_roundtrip
    (names : List String) (axes : List CoordVar)
    (dvars : List (String × (List ℕ → ℚ)))
    (hnd : names.Nodup) (hlen : axes.length = names.length)
    (hne : names ≠ []) (hax : ∀ cv ∈ axes, ValidAxis cv) :
    get_cube_point_values
      ⟨names, names.zip axes, dvars⟩
      (names.zip ((List.range names.length).map (fun j =>
        (meshIdx (axes.map (fun a => a.centers.length))).map
          (fun p => ((axes.getD j ⟨[], none⟩).centers).getD (p.getD j 0) 0))))
      false =
      .ok (dvars.map (fun nf => (nf.1,
        (meshIdx (axes.map (fun a => a.centers.length))).map
          (fun p => some (nf.2 p))))) := by
  rw [get_cube_point_values,
    roundtrip_point_indexes names axes dvars hnd hlen hax]
  exact roundtrip_values names axes dvars hnd hlen hne

/-- Witness for C3: a 2x2 cube with an increasing bounds-less time axis
(cell edges inferred from the centers) and a decreasing latitude axis with
explicit bounds; sampling at all four of its own cell-center tuples
returns exactly the four stored values in row order. -/
theorem extract_points_roundtrip_witness :
    get_cube_point_values
      ⟨["time", "lat"],
        [("time", ⟨[5, 15], none⟩),
         ("lat", ⟨[30, 10], some [(40, 20), (20, 0)]⟩)],
        [("a", fun p => ((2 * p.getD 0 0 + p.getD 1 0 : ℕ) : ℚ))]⟩
      [("time", [5, 5, 15, 15]), ("lat", [30, 10, 30, 10])] false =
      .ok [("a", [some 0, some 1, some 2, some 3])] := by
  have hedge : edgesFromCenters [5, 15] = [0, 10, 20] := by
    show ([5 - (15 - 5) / 2, 15 - (15 - 5) / 2, 15 + (15 - 5) - (15 - 5) / 2]
      : List ℚ) = [0, 10, 20]
    norm_num
  have h := extract_points_roundtrip ["time", "lat"]
    [⟨[5, 15], none⟩, ⟨[30, 10], some [(40, 20), (20, 0)]⟩]
    [("a", fun p => ((2 * p.getD 0 0 + p.getD 1 0 : ℕ) : ℚ))]
    (by decide) rfl (by decide)
    (by
      intro cv hcv
      simp only [List.mem_cons, List.not_mem_nil, or_false] at hcv
      rcases hcv with rfl | rfl
      · refine Or.inr ⟨rfl, by decide, Or.inl ⟨?_, ?_, ?_⟩⟩
        · show ¬ ((15 : ℚ) - 5 < 0)
          norm_num
        · show (edgesFromCenters [5, 15]).Sorted (· < ·)
          rw [hedge]
          decide
        · intro x hx
          show (edgesFromCenters [5, 15]).getD x 0 ≤ [5, 15].getD x 0 ∧
            [5, 15].getD x 0 < (edgesFromCenters [5, 15]).getD (x + 1) 0
          rw [hedge]
          have hx2 : x < 2 := by simpa using hx
          rcases x with _ | x1
          · exact ⟨by decide, by decide⟩
          · rcases x1 with _ | x2
            · exact ⟨by decide, by decide⟩
            · exact absurd hx2 (by omega)
      · exact Or.inl ⟨[(40, 20), (20, 0)], rfl, by decide, by decide,
          Or.inr ⟨by decide, by decide, by decide⟩⟩)
  exact h
